import Mathlib

/-!
# The X25519 key-encapsulation adapter (`kem/x25519/x25519.go`)

A shallow embedding of the adapter that turns the X25519 Diffie-Hellman
primitive into a KEM, and the properties its specification states.

* Go byte slices are lists of bytes; a `nil` slice is `none`.
* The array type `[32]byte` is a list of bytes of length 32.
* An interface value (`kem.PublicKey`, `kem.PrivateKey`) that holds a key is
  either a key of this scheme or a key of some other scheme; an argument of
  type `kem.PublicKey` may also be the nil interface or hold a nil pointer
  (`PublicKeyArg`).
* A Go function with several results returns the tuple of its results.
* `panic` is an explicit outcome.
* The randomness source is an explicit argument.
* The package `dh/x25519` is not part of the sources: the adapter takes it as
  a parameter (`DHEngine`), and `x25519` below is the standard X25519 function.
-/

namespace X25519Kem

/-! ## Bytes, slices and arrays -/

/-- A Go `byte`. -/
abbrev Byte := Fin 256

/-- The constant `x25519.Size`. -/
def Size : Nat := 32

/-- The type `x25519.Key`, which is `[Size]byte`. -/
abbrev Key := { l : List Byte // l.length = Size }

/-- Go's builtin `copy(dst, src)`: the contents of `dst` afterwards. The first
`min (len dst) (len src)` bytes come from `src`, the rest of `dst` stays. -/
def copy (dst src : List Byte) : List Byte :=
  src.take dst.length ++ dst.drop src.length

/-- The zero value of `[Size]byte`, as in `var k x25519.Key`. -/
def Key.zero : Key := ⟨List.replicate Size 0, by simp⟩

/-- The statement `copy(k[:], src)` on an array `k`. -/
def Key.copyFrom (k : Key) (src : List Byte) : Key :=
  ⟨copy k.1 src, by
    have h := k.2
    simp only [copy, List.length_append, List.length_take, List.length_drop]
    omega⟩

/-- The slice `k[:]` of an array. -/
def Key.slice (k : Key) : List Byte := k.1

/-! ## The package `kem`: errors and interfaces -/

/-- The error values of package `kem` the adapter returns, and the error of the
randomness source. -/
inductive KemError
  | ErrTypeMismatch
  | ErrSeedSize
  | ErrPubKeySize
  | ErrCiphertextSize
  | ErrPrivKeySize
  | ErrPubKey
  | ErrCipherText
  | ErrRandomSource
deriving DecidableEq, Repr

/-- The type `PrivateKey`, defined as `x25519.Key`. -/
structure PrivateKey where
  key : Key
deriving DecidableEq

/-- The type `PublicKey`, defined as `x25519.Key`. -/
structure PublicKey where
  key : Key
deriving DecidableEq

/-- A key held in an interface of type `kem.PublicKey`: a non-nil `*PublicKey`
of this scheme, or a key of another concrete type (named by its scheme, with
its bytes). The nil interface and an interface holding a nil `*PublicKey` are
not keys; `PublicKeyArg` adds them. -/
inductive KemPublicKey
  | x25519 (pk : PublicKey)
  | foreign (scheme : String) (raw : List Byte)
deriving DecidableEq

/-- A key held in an interface of type `kem.PrivateKey`: a non-nil
`*PrivateKey` of this scheme, or a key of another concrete type. The nil
interface and an interface holding a nil `*PrivateKey` are not keys and are
not modelled. -/
inductive KemPrivateKey
  | x25519 (sk : PrivateKey)
  | foreign (scheme : String) (raw : List Byte)
deriving DecidableEq

/-- The outcome of a Go call that may panic. -/
inductive Outcome (α : Type)
  | returned (a : α)
  | panicked (e : KemError)
deriving DecidableEq

/-! ## The package `dh/x25519`, as a parameter -/

/-- The two functions of package `dh/x25519` the adapter calls.
`KeyGen secret` is the array `KeyGen(public, secret)` leaves in `public`;
`Shared secret public` is the array `Shared(shared, secret, public)` leaves in
`shared`, with the boolean it returns. -/
structure DHEngine where
  KeyGen : Key → Key
  Shared : Key → Key → Key × Bool

/-! ## Size queries -/

/-- The method `(*scheme) PublicKeySize()`. -/
def PublicKeySize : Nat := Size

/-- The method `(*scheme) PrivateKeySize()`. -/
def PrivateKeySize : Nat := Size

/-- The method `(*scheme) SeedSize()`. -/
def SeedSize : Nat := Size

/-- The method `(*scheme) SharedKeySize()`. -/
def SharedKeySize : Nat := Size

/-- The method `(*scheme) CiphertextSize()`. -/
def CiphertextSize : Nat := Size

/-- The method `(*scheme) EncapsulationSeedSize()`. -/
def EncapsulationSeedSize : Nat := Size

/-! ## Marshalling and equality -/

/-- The method `(sk *PrivateKey) MarshalBinary`: a fresh array, filled by `copy`. -/
def PrivateKey.MarshalBinary (sk : PrivateKey) : List Byte × Option KemError :=
  let ret : Key := Key.zero.copyFrom sk.key.slice
  (ret.slice, none)

/-- The method `(pk *PublicKey) MarshalBinary`: a fresh array, filled by `copy`. -/
def PublicKey.MarshalBinary (pk : PublicKey) : List Byte × Option KemError :=
  let ret : Key := Key.zero.copyFrom pk.key.slice
  (ret.slice, none)

/-- The function `subtle.ConstantTimeByteEq(x, y)`: `int((uint32(x^y) - 1) >> 31)`. -/
def ConstantTimeByteEq (x y : Byte) : Nat :=
  (((x ^^^ y).val + (2 ^ 32 - 1)) % 2 ^ 32) / 2 ^ 31

/-- The loop of `subtle.ConstantTimeCompare`: `v |= x[i] ^ y[i]` for every `i`. -/
def ctAccumulate : Byte → List Byte → List Byte → Byte
  | v, a :: x, b :: y => ctAccumulate (v ||| (a ^^^ b)) x y
  | v, _, _ => v

/-- The function `subtle.ConstantTimeCompare(x, y)`: `0` on different lengths,
else whether the accumulated difference is zero. -/
def ConstantTimeCompare (x y : List Byte) : Nat :=
  if x.length ≠ y.length then 0
  else ConstantTimeByteEq (ctAccumulate 0 x y) 0

/-- The function `bytes.Equal(a, b)`. -/
def bytesEqual (a b : List Byte) : Bool := decide (a = b)

/-- The method `(sk *PrivateKey) Equal(other kem.PrivateKey)`. -/
def PrivateKey.Equal (sk : PrivateKey) (other : KemPrivateKey) : Bool :=
  match other with
  | .foreign _ _ => false
  | .x25519 oth => ConstantTimeCompare sk.key.slice oth.key.slice == 1

/-- The method `(pk *PublicKey) Equal(other kem.PublicKey)`. -/
def PublicKey.Equal (pk : PublicKey) (other : KemPublicKey) : Bool :=
  match other with
  | .foreign _ _ => false
  | .x25519 oth => bytesEqual pk.key.slice oth.key.slice

/-! ## Key generation and derivation -/

/-- The method `(*scheme) DeriveKey(seed)`. -/
def DeriveKey (dh : DHEngine) (seed : List Byte) :
    Outcome (KemPublicKey × KemPrivateKey) :=
  if seed.length ≠ Size then
    .panicked .ErrSeedSize
  else
    let sk : PrivateKey := ⟨Key.zero.copyFrom seed⟩
    let pk : PublicKey := ⟨dh.KeyGen sk.key⟩
    .returned (.x25519 pk, .x25519 sk)

/-- The method `(sch *scheme) GenerateKey()`; `rand` is what `cryptoRand.Read(seed[:])`
does to the 32-byte buffer: an error, or the bytes it wrote. -/
def GenerateKey (dh : DHEngine) (rand : Except KemError Key) :
    Outcome (Option KemPublicKey × Option KemPrivateKey × Option KemError) :=
  match rand with
  | .error err => .returned (none, none, some err)
  | .ok seed =>
    match DeriveKey dh seed.slice with
    | .panicked e => .panicked e
    | .returned (pk, sk) => .returned (some pk, some sk, none)

/-! ## Encapsulation and decapsulation -/

/-- The method `(*scheme) EncapsulateDeterministically(pk, seed)`: the results
`(ct, ss, err)`. -/
def EncapsulateDeterministically (dh : DHEngine) (pk : KemPublicKey)
    (seed : List Byte) :
    Option (List Byte) × Option (List Byte) × Option KemError :=
  if seed.length ≠ Size then
    (none, none, some .ErrSeedSize)
  else
    let priv : Key := Key.zero.copyFrom seed
    match pk with
    | .foreign _ _ => (none, none, some .ErrTypeMismatch)
    | .x25519 pub =>
      let ct : Key := dh.KeyGen priv
      let r := dh.Shared priv pub.key
      if !r.2 then
        (none, none, some .ErrPubKey)
      else
        (some ct.slice, some r.1.slice, none)

/-- The method `(sch *scheme) Encapsulate(pk)`, with the randomness draw as argument. -/
def Encapsulate (dh : DHEngine) (rand : Except KemError Key) (pk : KemPublicKey) :
    Option (List Byte) × Option (List Byte) × Option KemError :=
  match rand with
  | .error err => (none, none, some err)
  | .ok seed => EncapsulateDeterministically dh pk seed.slice

/-- An argument of interface type `kem.PublicKey`, as a caller can pass it: an
interface holding a key, an interface holding a nil `*PublicKey`, or the nil
interface. -/
inductive PublicKeyArg
  | key (pk : KemPublicKey)
  | nilPointer
  | nilInterface
deriving DecidableEq

/-- The outcome of a call on such an argument: it returns its results, or the
Go runtime panics on the dereference of a nil pointer. -/
inductive ArgOutcome (α : Type)
  | returned (a : α)
  | nilDereference
deriving DecidableEq

/-- Modelled from the spec: the shared-computation step of the DH engine
(`x25519.Shared`, absent from the sources) called with a nil `public` pointer.
The engine computes on the 32 bytes of the point, so it reads the pointer, and
the Go runtime panics. -/
def SharedOnNil : ArgOutcome (Key × Bool) := .nilDereference

/-- The method `(*scheme) EncapsulateDeterministically(pk, seed)` on an
arbitrary argument of interface type. The seed is checked first; the assertion
`pk.(*PublicKey)` fails on the nil interface and on a key of another type; it
succeeds on a nil `*PublicKey`, which is then passed to `x25519.Shared`. -/
def EncapsulateDeterministicallyArg (dh : DHEngine) (pk : PublicKeyArg)
    (seed : List Byte) :
    ArgOutcome (Option (List Byte) × Option (List Byte) × Option KemError) :=
  if seed.length ≠ Size then
    .returned (none, none, some .ErrSeedSize)
  else
    let priv : Key := Key.zero.copyFrom seed
    match pk with
    | .nilInterface => .returned (none, none, some .ErrTypeMismatch)
    | .key (.foreign _ _) => .returned (none, none, some .ErrTypeMismatch)
    | .nilPointer =>
      let ct : Key := dh.KeyGen priv
      match SharedOnNil with
      | .nilDereference => .nilDereference
      | .returned r =>
        if !r.2 then
          .returned (none, none, some .ErrPubKey)
        else
          .returned (some ct.slice, some r.1.slice, none)
    | .key (.x25519 pub) =>
      let ct : Key := dh.KeyGen priv
      let r := dh.Shared priv pub.key
      if !r.2 then
        .returned (none, none, some .ErrPubKey)
      else
        .returned (some ct.slice, some r.1.slice, none)

/-- The method `(sch *scheme) Encapsulate(pk)` on an arbitrary argument of
interface type, with the randomness draw as argument. -/
def EncapsulateArg (dh : DHEngine) (rand : Except KemError Key) (pk : PublicKeyArg) :
    ArgOutcome (Option (List Byte) × Option (List Byte) × Option KemError) :=
  match rand with
  | .error err => .returned (none, none, some err)
  | .ok seed => EncapsulateDeterministicallyArg dh pk seed.slice

/-- The method `(*scheme) Decapsulate(sk, ct)`: the results `(ss, err)`. -/
def Decapsulate (dh : DHEngine) (sk : KemPrivateKey) (ct : List Byte) :
    Option (List Byte) × Option KemError :=
  if ct.length ≠ Size then
    (none, some .ErrCiphertextSize)
  else
    match sk with
    | .foreign _ _ => (none, some .ErrTypeMismatch)
    | .x25519 priv =>
      let ct2 : Key := Key.zero.copyFrom ct
      let r := dh.Shared priv.key ct2
      if !r.2 then
        (none, some .ErrCipherText)
      else
        (some r.1.slice, none)

/-- The method `(*scheme) UnmarshalBinaryPublicKey(buf)`. -/
def UnmarshalBinaryPublicKey (buf : List Byte) :
    Option KemPublicKey × Option KemError :=
  if buf.length ≠ Size then
    (none, some .ErrPubKeySize)
  else
    let ret : PublicKey := ⟨Key.zero.copyFrom buf⟩
    (some (.x25519 ret), none)

/-- The method `(*scheme) UnmarshalBinaryPrivateKey(buf)`. -/
def UnmarshalBinaryPrivateKey (buf : List Byte) :
    Option KemPrivateKey × Option KemError :=
  if buf.length ≠ Size then
    (none, some .ErrPrivKeySize)
  else
    let ret : PrivateKey := ⟨Key.zero.copyFrom buf⟩
    (some (.x25519 ret), none)

/-! ## The DH engine: the X25519 function -/

/-- Modelled from the spec: the prime `2^255 - 19` of the field the DH engine
(package `dh/x25519`, absent from the sources) computes in. -/
def P : Nat := 2 ^ 255 - 19

/-- Modelled from the spec: the ladder constant `(486662 - 2) / 4` of the
standard X25519 function. -/
def A24 : Nat := 121665

/-- Modelled from the spec: addition in the field of the DH engine. -/
def fadd (a b : Nat) : Nat := (a + b) % P

/-- Modelled from the spec: subtraction in the field of the DH engine. -/
def fsub (a b : Nat) : Nat := (a + (P - b % P)) % P

/-- Modelled from the spec: multiplication in the field of the DH engine. -/
def fmul (a b : Nat) : Nat := (a * b) % P

/-- Modelled from the spec: `b ^ e` modulo `m` by square and multiply, for an
exponent of at most `fuel` bits. -/
def powMod (m : Nat) : Nat → Nat → Nat → Nat
  | 0, _, _ => 1 % m
  | fuel + 1, b, e =>
    if e = 0 then 1 % m
    else
      let h := powMod m fuel (b * b % m) (e / 2)
      if e % 2 = 1 then b * h % m else h

/-- Modelled from the spec: the final inversion `z ^ (p - 2)` of the standard
X25519 function. -/
def finv (z : Nat) : Nat := powMod P 255 z (P - 2)

/-- Modelled from the spec: the little-endian value of a byte string. -/
def decodeLE : List Byte → Nat
  | [] => 0
  | b :: bs => b.val + 256 * decodeLE bs

/-- Modelled from the spec: the `n` low bytes of a number, little-endian. -/
def encodeLE : Nat → Nat → List Byte
  | 0, _ => []
  | n + 1, v => ⟨v % 256, Nat.mod_lt _ (by decide)⟩ :: encodeLE n (v / 256)

/-- Modelled from the spec: a field element as a 32-byte array. -/
def toKey (v : Nat) : Key :=
  ⟨encodeLE Size v, by
    generalize Size = n
    induction n generalizing v with
    | zero => rfl
    | succ n ih => simp [encodeLE, ih]⟩

/-- The assignment `k[i] = f(k[i])` on an array. -/
def Key.modifyAt (k : Key) (i : Nat) (f : Byte → Byte) : Key :=
  ⟨k.1.set i (f (k.1.getD i 0)), by rw [List.length_set]; exact k.2⟩

/-- Modelled from the spec: clamping, the bit-masking the DH engine applies to
a raw scalar before multiplication: `k[0] &= 248; k[31] = (k[31] & 127) | 64`. -/
def clamp (k : Key) : Key :=
  (k.modifyAt 0 (fun b => b &&& 248)).modifyAt 31 (fun b => (b &&& 127) ||| 64)

/-- Modelled from the spec: the working state of the Montgomery ladder of the
standard X25519 function. -/
structure Ladder where
  x2 : Nat
  z2 : Nat
  x3 : Nat
  z3 : Nat
  swap : Bool
deriving DecidableEq

/-- Modelled from the spec: the conditional swap of the ladder. -/
def cswap (swap : Bool) (a b : Nat) : Nat × Nat := if swap then (b, a) else (a, b)

/-- Modelled from the spec: one iteration of the Montgomery ladder of the
standard X25519 function, for bit `t` of the scalar `k`. -/
def ladderStep (x1 k : Nat) (s : Ladder) (t : Nat) : Ladder :=
  let kt : Bool := (k >>> t) &&& 1 == 1
  let swap := xor s.swap kt
  let x := cswap swap s.x2 s.x3
  let z := cswap swap s.z2 s.z3
  let A := fadd x.1 z.1
  let AA := fmul A A
  let B := fsub x.1 z.1
  let BB := fmul B B
  let E := fsub AA BB
  let C := fadd x.2 z.2
  let D := fsub x.2 z.2
  let DA := fmul D A
  let CB := fmul C B
  { x3 := fmul (fadd DA CB) (fadd DA CB)
    z3 := fmul x1 (fmul (fsub DA CB) (fsub DA CB))
    x2 := fmul AA BB
    z2 := fmul E (fadd AA (fmul A24 E))
    swap := kt }

/-- Modelled from the spec: the ladder iterations for the bits `t - 1, ..., 0`. -/
def ladderLoop (x1 k : Nat) : Nat → Ladder → Ladder
  | 0, s => s
  | t + 1, s => ladderLoop x1 k t (ladderStep x1 k s t)

/-- Modelled from the spec: the projective result `(x_2, z_2)` of the ladder
over the 255 bits of the scalar. -/
def ladderXZ (k u : Nat) : Nat × Nat :=
  let s := ladderLoop u k 255 ⟨1, 0, u, 1, false⟩
  ((cswap s.swap s.x2 s.x3).1, (cswap s.swap s.z2 s.z3).1)

/-- Modelled from the spec: the standard X25519 function on a scalar and a
u-coordinate, `x_2 * z_2 ^ (p - 2)`. -/
def X25519 (k u : Nat) : Nat :=
  let r := ladderXZ k (u % P)
  fmul r.1 (finv r.2)

/-- Modelled from the spec: the u-coordinates the DH engine reports as
degenerate, the points of low order: `0`, `1`, the two of order 8, `p - 1`. -/
def lowOrderPoints : List Nat :=
  [0, 1,
   325606250916557431795983626356110631294008115727848805560023387167927233504,
   39382357235489614581723060781553021112529911719440698176882885853963445705823,
   2 ^ 255 - 20]

/-- Modelled from the spec: the key-generation step of the DH engine
(`x25519.KeyGen`, absent from the sources): the standard X25519 function of the
clamped secret and the base point `9`. -/
def KeyGen (secret : Key) : Key :=
  toKey (X25519 (decodeLE (clamp secret).1) 9)

/-- Modelled from the spec: the shared-computation step of the DH engine
(`x25519.Shared`, absent from the sources): the standard X25519 function of the
clamped secret and the public u-coordinate (its top bit masked), with the
validity flag, false when the public key is a point of low order. -/
def Shared (secret pub : Key) : Key × Bool :=
  let u := decodeLE pub.1 % 2 ^ 255
  (toKey (X25519 (decodeLE (clamp secret).1) u), !(lowOrderPoints.contains (u % P)))

/-- Modelled from the spec: the DH engine of package `dh/x25519`. -/
def x25519 : DHEngine := ⟨KeyGen, Shared⟩

/-! ## Definitions used in the proofs -/

/-- The check of a Lucas certificate of primality: `a` has order `N - 1`
modulo `N`, where `qs` holds the prime factors of `N - 1`. -/
def lucasCheck (N a : Nat) (qs : List Nat) : Bool :=
  decide (1 < N) && (powMod N 256 a (N - 1) == 1) && (qs.prod ^ 256 % (N - 1) == 0) &&
    qs.all fun q => powMod N 256 a ((N - 1) / q) != 1

/-- The Montgomery curve `y² = x³ + A x² + x`, as a Weierstrass curve. -/
def curve {F : Type} [CommRing F] (A : F) : WeierstrassCurve.Affine F := ⟨0, A, 0, 1, 0⟩

/-- The projective pair `(X : Z)` is the x-coordinate of the point `Q`; the
point at infinity is `(X : 0)` with `X ≠ 0`. -/
def Rep {F : Type} [CommRing F] {A : F} (Q : (curve A).Point) (X Z : F) : Prop :=
  match Q with
  | .zero => Z = 0 ∧ X ≠ 0
  | @WeierstrassCurve.Affine.Point.some _ _ _ x _ _ => Z ≠ 0 ∧ X = x * Z

/-- The doubling formula of the Montgomery ladder, X-coordinate. -/
def dblX {F : Type} [CommRing F] (X Z : F) : F := (X + Z) ^ 2 * (X - Z) ^ 2

/-- The doubling formula of the Montgomery ladder, Z-coordinate. -/
def dblZ {F : Type} [CommRing F] (a24 X Z : F) : F :=
  ((X + Z) ^ 2 - (X - Z) ^ 2) * ((X + Z) ^ 2 + a24 * ((X + Z) ^ 2 - (X - Z) ^ 2))

/-- The differential addition formula of the Montgomery ladder, X-coordinate. -/
def dadX {F : Type} [CommRing F] (X2 Z2 X3 Z3 : F) : F :=
  ((X3 - Z3) * (X2 + Z2) + (X3 + Z3) * (X2 - Z2)) ^ 2

/-- The differential addition formula of the Montgomery ladder, Z-coordinate. -/
def dadZ {F : Type} [CommRing F] (x1 X2 Z2 X3 Z3 : F) : F :=
  x1 * ((X3 - Z3) * (X2 + Z2) - (X3 + Z3) * (X2 - Z2)) ^ 2

/-- The pair of the ladder state that holds the multiple `n • Q`. -/
def Ladder.lo (s : Ladder) : Nat × Nat :=
  ((cswap s.swap s.x2 s.x3).1, (cswap s.swap s.z2 s.z3).1)

/-- The pair of the ladder state that holds the multiple `(n + 1) • Q`. -/
def Ladder.hi (s : Ladder) : Nat × Nat :=
  ((cswap s.swap s.x2 s.x3).2, (cswap s.swap s.z2 s.z3).2)

/-- The x-coordinate of a point, `0` for the point at infinity. -/
def xOf {F : Type} [CommRing F] {A : F} (Q : (curve A).Point) : F :=
  match Q with
  | .zero => 0
  | @WeierstrassCurve.Affine.Point.some _ _ _ x _ _ => x

/-- The coefficient `A = 486662` of Curve25519 in its field. -/
def curveA : ZMod P := 486662

/-- The curve Curve25519. -/
abbrev Curve25519 : WeierstrassCurve.Affine (ZMod P) := curve curveA

/-- Evaluate a number before passing it on. -/
def seqNat {α : Type} (n : Nat) (f : Nat → α) : α :=
  match n with
  | 0 => f 0
  | m + 1 => f (m + 1)

/-- The ladder loop, with every intermediate state evaluated: the same
function as `ladderLoop`, in a form that evaluates in bounded depth. -/
def ladderLoopS (x1 k : Nat) : Nat → Ladder → Ladder
  | 0, s => s
  | t + 1, s =>
    let r := ladderStep x1 k s t
    seqNat r.x2 fun a => seqNat r.z2 fun b => seqNat r.x3 fun c => seqNat r.z3 fun d =>
      ladderLoopS x1 k t ⟨a, b, c, d, r.swap⟩

/-- The projective result of the ladder, through `ladderLoopS`. -/
def ladderXZS (k u : Nat) : Nat × Nat :=
  let s := ladderLoopS u k 255 ⟨1, 0, u, 1, false⟩
  ((cswap s.swap s.x2 s.x3).1, (cswap s.swap s.z2 s.z3).1)

/-- The y-coordinate of the base point `(9, y)` of Curve25519. -/
def baseY : Nat :=
  14781619447589544791020593568409986887264606134616475288964881837755586237401

/-- The order of the base point of Curve25519. -/
def baseOrder : Nat := 2 ^ 252 + 27742317777372353535851937790883648493

/-- A clamped scalar: a multiple of 8 with bit 254 as its top bit. -/
def Clamped (n : Nat) : Prop := 2 ^ 254 ≤ n ∧ n < 2 ^ 255 ∧ n % 8 = 0

/-! ## Helper lemmas on the adapter -/

theorem copy_of_length_eq (dst src : List Byte) (h : src.length = dst.length) :
    copy dst src = src := by
  simp [copy, ← h]

theorem Key_zero_copyFrom_slice (k : Key) : Key.zero.copyFrom k.slice = k := by
  apply Subtype.ext
  exact copy_of_length_eq _ _ (k.2.trans Key.zero.2.symm)

theorem Key_zero_copyFrom_val (l : List Byte) (h : l.length = Size) :
    (Key.zero.copyFrom l).1 = l :=
  copy_of_length_eq _ _ (h.trans Key.zero.2.symm)

theorem Key_zero_copyFrom_mk (l : List Byte) (h : l.length = Size) :
    Key.zero.copyFrom l = ⟨l, h⟩ :=
  Subtype.ext (Key_zero_copyFrom_val l h)

theorem byte_xor_self (a : Byte) : a ^^^ a = 0 := by
  apply Fin.ext
  show (a.val ^^^ a.val) % 256 = 0
  simp

theorem byte_or_zero (v : Byte) : v ||| 0 = v := by
  apply Fin.ext
  show (v.val ||| 0) % 256 = v.val
  simp [Nat.mod_eq_of_lt v.2]

theorem ctAccumulate_self (v : Byte) (x : List Byte) : ctAccumulate v x x = v := by
  induction x generalizing v with
  | nil => rfl
  | cons a x ih => simp [ctAccumulate, byte_xor_self, byte_or_zero, ih]

theorem ConstantTimeCompare_self (x : List Byte) : ConstantTimeCompare x x = 1 := by
  simp [ConstantTimeCompare, ctAccumulate_self]
  decide

theorem PrivateKey_Equal_self (sk : PrivateKey) : sk.Equal (.x25519 sk) = true := by
  simp [PrivateKey.Equal, ConstantTimeCompare_self]

theorem PublicKey_Equal_self (pk : PublicKey) : pk.Equal (.x25519 pk) = true := by
  simp [PublicKey.Equal, bytesEqual]

theorem PublicKey_MarshalBinary_eq (pk : PublicKey) :
    pk.MarshalBinary = (pk.key.slice, none) := by
  simp [PublicKey.MarshalBinary, Key_zero_copyFrom_slice]

theorem PrivateKey_MarshalBinary_eq (sk : PrivateKey) :
    sk.MarshalBinary = (sk.key.slice, none) := by
  simp [PrivateKey.MarshalBinary, Key_zero_copyFrom_slice]

theorem DeriveKey_of_length (dh : DHEngine) (seed : List Byte) (h : seed.length = Size) :
    DeriveKey dh seed =
      .returned (.x25519 ⟨dh.KeyGen ⟨seed, h⟩⟩, .x25519 ⟨⟨seed, h⟩⟩) := by
  simp [DeriveKey, h, Key_zero_copyFrom_mk]

theorem EncapsulateDeterministically_of_length (dh : DHEngine) (pub : PublicKey)
    (seed : List Byte) (h : seed.length = Size) :
    EncapsulateDeterministically dh (.x25519 pub) seed =
      if (dh.Shared ⟨seed, h⟩ pub.key).2 = false then (none, none, some .ErrPubKey)
      else (some (dh.KeyGen ⟨seed, h⟩).slice, some (dh.Shared ⟨seed, h⟩ pub.key).1.slice, none) := by
  simp [EncapsulateDeterministically, h, Key_zero_copyFrom_mk]

theorem Decapsulate_of_length (dh : DHEngine) (priv : PrivateKey)
    (ct : List Byte) (h : ct.length = Size) :
    Decapsulate dh (.x25519 priv) ct =
      if (dh.Shared priv.key ⟨ct, h⟩).2 = false then (none, some .ErrCipherText)
      else (some (dh.Shared priv.key ⟨ct, h⟩).1.slice, none) := by
  simp [Decapsulate, h, Key_zero_copyFrom_mk]

/-! ## Primality of the field prime and of the order of the base point -/

theorem powMod_eq (m : Nat) : ∀ (fuel b e : Nat), e < 2 ^ fuel → powMod m fuel b e = b ^ e % m := by
  intro fuel
  induction fuel with
  | zero =>
    intro b e he
    have : e = 0 := by simpa using he
    subst this
    simp [powMod]
  | succ n ih =>
    intro b e he
    unfold powMod
    by_cases h0 : e = 0
    · simp [h0]
    · rw [if_neg h0]
      have hlt : e / 2 < 2 ^ n := by
        rw [pow_succ] at he
        omega
      have hh := ih (b * b % m) (e / 2) hlt
      simp only [hh]
      have hsq : (b * b % m) ^ (e / 2) % m = (b ^ (2 * (e / 2))) % m := by
        rw [← Nat.pow_mod, pow_mul, pow_two]
      rw [hsq]
      by_cases h1 : e % 2 = 1
      · rw [if_pos h1]
        have he2 : e = 2 * (e / 2) + 1 := by omega
        conv_rhs => rw [he2, pow_succ, Nat.mul_comm]
        rw [Nat.mul_mod, Nat.mod_mod, ← Nat.mul_mod]
      · rw [if_neg h1]
        have he2 : e = 2 * (e / 2) := by omega
        conv_rhs => rw [he2]

theorem prime_of_lucasCheck (N a : Nat) (qs : List Nat) (hN : N < 2 ^ 256)
    (hqs : ∀ q ∈ qs, q.Prime) (h : lucasCheck N a qs = true) : N.Prime := by
  simp only [lucasCheck, Bool.and_eq_true, decide_eq_true_eq, beq_iff_eq, List.all_eq_true,
    bne_iff_ne, ne_eq] at h
  obtain ⟨⟨⟨h1, hpow⟩, hdiv⟩, hall⟩ := h
  have hlt : ∀ e, e ≤ N - 1 → e < 2 ^ 256 := fun e he => by omega
  have cast_pow : ∀ e, e ≤ N - 1 → (((a : ZMod N)) ^ e = 1 ↔ powMod N 256 a e = 1) := by
    intro e he
    rw [powMod_eq N 256 a e (hlt e he)]
    have h11 : (1 : ZMod N) = ((1 : ℕ) : ZMod N) := by simp
    rw [h11, ← Nat.cast_pow, ZMod.natCast_eq_natCast_iff', Nat.mod_eq_of_lt h1]
  refine lucas_primality N (a : ZMod N) ((cast_pow _ le_rfl).2 hpow) ?_
  intro q hq hqd
  rw [Ne, cast_pow _ (Nat.div_le_self _ _)]
  apply hall
  have h2 : q ∣ qs.prod ^ 256 := dvd_trans hqd (Nat.dvd_of_mod_eq_zero hdiv)
  have h3 : q ∣ qs.prod := hq.dvd_of_dvd_pow h2
  obtain ⟨r, hr, hqr⟩ := (Prime.dvd_prod_iff hq.prime).1 h3
  have := (Nat.prime_dvd_prime_iff_eq hq (hqs r hr)).1 hqr
  subst this
  exact hr

section Certificates

set_option maxRecDepth 100000

theorem prime_2 : Nat.Prime 2 := by norm_num

theorem prime_3 : Nat.Prime 3 := by norm_num

theorem prime_17 : Nat.Prime 17 := by norm_num

theorem prime_479 : Nat.Prime 479 := by norm_num

theorem prime_32573 : Nat.Prime 32573 := by
  refine prime_of_lucasCheck _ 2 [2, 17, 479] (by norm_num) ?_ (by decide)
  intro q hq
  simp only [List.mem_cons, List.mem_singleton, List.not_mem_nil, or_false] at hq
  rcases hq with rfl | rfl | rfl
  · exact prime_2
  · exact prime_17
  · exact prime_479

theorem prime_65147 : Nat.Prime 65147 := by
  refine prime_of_lucasCheck _ 2 [2, 32573] (by norm_num) ?_ (by decide)
  intro q hq
  simp only [List.mem_cons, List.mem_singleton, List.not_mem_nil, or_false] at hq
  rcases hq with rfl | rfl
  · exact prime_2
  · exact prime_32573

theorem prime_353 : Nat.Prime 353 := by norm_num

theorem prime_59 : Nat.Prime 59 := by norm_num

theorem prime_487 : Nat.Prime 487 := by norm_num

theorem prime_57467 : Nat.Prime 57467 := by
  refine prime_of_lucasCheck _ 2 [2, 59, 487] (by norm_num) ?_ (by decide)
  intro q hq
  simp only [List.mem_cons, List.mem_singleton, List.not_mem_nil, or_false] at hq
  rcases hq with rfl | rfl | rfl
  · exact prime_2
  · exact prime_59
  · exact prime_487

theorem prime_7 : Nat.Prime 7 := by norm_num

theorem prime_131 : Nat.Prime 131 := by norm_num

theorem prime_132049 : Nat.Prime 132049 := by
  refine prime_of_lucasCheck _ 26 [2, 3, 7, 131] (by norm_num) ?_ (by decide)
  intro q hq
  simp only [List.mem_cons, List.mem_singleton, List.not_mem_nil, or_false] at hq
  rcases hq with rfl | rfl | rfl | rfl
  · exact prime_2
  · exact prime_3
  · exact prime_7
  · exact prime_131

theorem prime_43 : Nat.Prime 43 := by norm_num

theorem prime_23 : Nat.Prime 23 := by norm_num

theorem prime_3727 : Nat.Prime 3727 := by
  refine prime_of_lucasCheck _ 3 [2, 3, 23] (by norm_num) ?_ (by decide)
  intro q hq
  simp only [List.mem_cons, List.mem_singleton, List.not_mem_nil, or_false] at hq
  rcases hq with rfl | rfl | rfl
  · exact prime_2
  · exact prime_3
  · exact prime_23

theorem prime_1923133 : Nat.Prime 1923133 := by
  refine prime_of_lucasCheck _ 2 [2, 3, 43, 3727] (by norm_num) ?_ (by decide)
  intro q hq
  simp only [List.mem_cons, List.mem_singleton, List.not_mem_nil, or_false] at hq
  rcases hq with rfl | rfl | rfl | rfl
  · exact prime_2
  · exact prime_3
  · exact prime_43
  · exact prime_3727

theorem prime_31 : Nat.Prime 31 := by norm_num

theorem prime_107 : Nat.Prime 107 := by norm_num

theorem prime_223 : Nat.Prime 223 := by norm_num

theorem prime_173 : Nat.Prime 173 := by norm_num

theorem prime_4153 : Nat.Prime 4153 := by
  refine prime_of_lucasCheck _ 5 [2, 3, 173] (by norm_num) ?_ (by decide)
  intro q hq
  simp only [List.mem_cons, List.mem_singleton, List.not_mem_nil, or_false] at hq
  rcases hq with rfl | rfl | rfl
  · exact prime_2
  · exact prime_3
  · exact prime_173

theorem prime_5 : Nat.Prime 5 := by norm_num

theorem prime_41 : Nat.Prime 41 := by norm_num

theorem prime_1723 : Nat.Prime 1723 := by
  refine prime_of_lucasCheck _ 3 [2, 3, 7, 41] (by norm_num) ?_ (by decide)
  intro q hq
  simp only [List.mem_cons, List.mem_singleton, List.not_mem_nil, or_false] at hq
  rcases hq with rfl | rfl | rfl | rfl
  · exact prime_2
  · exact prime_3
  · exact prime_7
  · exact prime_41

theorem prime_430751 : Nat.Prime 430751 := by
  refine prime_of_lucasCheck _ 17 [2, 5, 1723] (by norm_num) ?_ (by decide)
  intro q hq
  simp only [List.mem_cons, List.mem_singleton, List.not_mem_nil, or_false] at hq
  rcases hq with rfl | rfl | rfl
  · exact prime_2
  · exact prime_5
  · exact prime_1723

theorem prime_31757755568855353 : Nat.Prime 31757755568855353 := by
  refine prime_of_lucasCheck _ 10 [2, 3, 31, 107, 223, 4153, 430751] (by norm_num) ?_ (by decide)
  intro q hq
  simp only [List.mem_cons, List.mem_singleton, List.not_mem_nil, or_false] at hq
  rcases hq with rfl | rfl | rfl | rfl | rfl | rfl | rfl
  · exact prime_2
  · exact prime_3
  · exact prime_31
  · exact prime_107
  · exact prime_223
  · exact prime_4153
  · exact prime_430751

theorem prime_19 : Nat.Prime 19 := by norm_num

theorem prime_83 : Nat.Prime 83 := by norm_num

theorem prime_9463 : Nat.Prime 9463 := by
  refine prime_of_lucasCheck _ 3 [2, 3, 19, 83] (by norm_num) ?_ (by decide)
  intro q hq
  simp only [List.mem_cons, List.mem_singleton, List.not_mem_nil, or_false] at hq
  rcases hq with rfl | rfl | rfl | rfl
  · exact prime_2
  · exact prime_3
  · exact prime_19
  · exact prime_83

theorem prime_37853 : Nat.Prime 37853 := by
  refine prime_of_lucasCheck _ 2 [2, 9463] (by norm_num) ?_ (by decide)
  intro q hq
  simp only [List.mem_cons, List.mem_singleton, List.not_mem_nil, or_false] at hq
  rcases hq with rfl | rfl
  · exact prime_2
  · exact prime_9463

theorem prime_75707 : Nat.Prime 75707 := by
  refine prime_of_lucasCheck _ 2 [2, 37853] (by norm_num) ?_ (by decide)
  intro q hq
  simp only [List.mem_cons, List.mem_singleton, List.not_mem_nil, or_false] at hq
  rcases hq with rfl | rfl
  · exact prime_2
  · exact prime_37853

theorem prime_13 : Nat.Prime 13 := by norm_num

theorem prime_29 : Nat.Prime 29 := by norm_num

theorem prime_2437 : Nat.Prime 2437 := by
  refine prime_of_lucasCheck _ 2 [2, 3, 7, 29] (by norm_num) ?_ (by decide)
  intro q hq
  simp only [List.mem_cons, List.mem_singleton, List.not_mem_nil, or_false] at hq
  rcases hq with rfl | rfl | rfl | rfl
  · exact prime_2
  · exact prime_3
  · exact prime_7
  · exact prime_29

theorem prime_97 : Nat.Prime 97 := by norm_num

theorem prime_419 : Nat.Prime 419 := by norm_num

theorem prime_569003 : Nat.Prime 569003 := by
  refine prime_of_lucasCheck _ 2 [2, 7, 97, 419] (by norm_num) ?_ (by decide)
  intro q hq
  simp only [List.mem_cons, List.mem_singleton, List.not_mem_nil, or_false] at hq
  rcases hq with rfl | rfl | rfl | rfl
  · exact prime_2
  · exact prime_7
  · exact prime_97
  · exact prime_419

theorem prime_2773320623 : Nat.Prime 2773320623 := by
  refine prime_of_lucasCheck _ 5 [2, 2437, 569003] (by norm_num) ?_ (by decide)
  intro q hq
  simp only [List.mem_cons, List.mem_singleton, List.not_mem_nil, or_false] at hq
  rcases hq with rfl | rfl | rfl
  · exact prime_2
  · exact prime_2437
  · exact prime_569003

theorem prime_72106336199 : Nat.Prime 72106336199 := by
  refine prime_of_lucasCheck _ 7 [2, 13, 2773320623] (by norm_num) ?_ (by decide)
  intro q hq
  simp only [List.mem_cons, List.mem_singleton, List.not_mem_nil, or_false] at hq
  rcases hq with rfl | rfl | rfl
  · exact prime_2
  · exact prime_13
  · exact prime_2773320623

theorem prime_47 : Nat.Prime 47 := by norm_num

theorem prime_127 : Nat.Prime 127 := by norm_num

theorem prime_103 : Nat.Prime 103 := by norm_num

theorem prime_991 : Nat.Prime 991 := by norm_num

theorem prime_8574133 : Nat.Prime 8574133 := by
  refine prime_of_lucasCheck _ 2 [2, 3, 7, 103, 991] (by norm_num) ?_ (by decide)
  intro q hq
  simp only [List.mem_cons, List.mem_singleton, List.not_mem_nil, or_false] at hq
  rcases hq with rfl | rfl | rfl | rfl | rfl
  · exact prime_2
  · exact prime_3
  · exact prime_7
  · exact prime_103
  · exact prime_991

theorem prime_1919519569386763 : Nat.Prime 1919519569386763 := by
  refine prime_of_lucasCheck _ 2 [2, 3, 7, 19, 47, 127, 8574133] (by norm_num) ?_ (by decide)
  intro q hq
  simp only [List.mem_cons, List.mem_singleton, List.not_mem_nil, or_false] at hq
  rcases hq with rfl | rfl | rfl | rfl | rfl | rfl | rfl
  · exact prime_2
  · exact prime_3
  · exact prime_7
  · exact prime_19
  · exact prime_47
  · exact prime_127
  · exact prime_8574133

theorem prime_75445702479781427272750846543864801 : Nat.Prime 75445702479781427272750846543864801 := by
  refine prime_of_lucasCheck _ 7 [2, 3, 5, 75707, 72106336199, 1919519569386763] (by norm_num) ?_ (by decide)
  intro q hq
  simp only [List.mem_cons, List.mem_singleton, List.not_mem_nil, or_false] at hq
  rcases hq with rfl | rfl | rfl | rfl | rfl | rfl
  · exact prime_2
  · exact prime_3
  · exact prime_5
  · exact prime_75707
  · exact prime_72106336199
  · exact prime_1919519569386763

theorem prime_74058212732561358302231226437062788676166966415465897661863160754340907 : Nat.Prime 74058212732561358302231226437062788676166966415465897661863160754340907 := by
  refine prime_of_lucasCheck _ 2 [2, 3, 353, 57467, 132049, 1923133, 31757755568855353, 75445702479781427272750846543864801] (by norm_num) ?_ (by decide)
  intro q hq
  simp only [List.mem_cons, List.mem_singleton, List.not_mem_nil, or_false] at hq
  rcases hq with rfl | rfl | rfl | rfl | rfl | rfl | rfl | rfl
  · exact prime_2
  · exact prime_3
  · exact prime_353
  · exact prime_57467
  · exact prime_132049
  · exact prime_1923133
  · exact prime_31757755568855353
  · exact prime_75445702479781427272750846543864801

theorem prime_57896044618658097711785492504343953926634992332820282019728792003956564819949 : Nat.Prime 57896044618658097711785492504343953926634992332820282019728792003956564819949 := by
  refine prime_of_lucasCheck _ 2 [2, 3, 65147, 74058212732561358302231226437062788676166966415465897661863160754340907] (by norm_num) ?_ (by decide)
  intro q hq
  simp only [List.mem_cons, List.mem_singleton, List.not_mem_nil, or_false] at hq
  rcases hq with rfl | rfl | rfl | rfl
  · exact prime_2
  · exact prime_3
  · exact prime_65147
  · exact prime_74058212732561358302231226437062788676166966415465897661863160754340907

theorem prime_11 : Nat.Prime 11 := by norm_num

theorem prime_34123 : Nat.Prime 34123 := by
  refine prime_of_lucasCheck _ 2 [2, 3, 11, 47] (by norm_num) ?_ (by decide)
  intro q hq
  simp only [List.mem_cons, List.mem_singleton, List.not_mem_nil, or_false] at hq
  rcases hq with rfl | rfl | rfl | rfl
  · exact prime_2
  · exact prime_3
  · exact prime_11
  · exact prime_47

theorem prime_409477 : Nat.Prime 409477 := by
  refine prime_of_lucasCheck _ 2 [2, 3, 34123] (by norm_num) ?_ (by decide)
  intro q hq
  simp only [List.mem_cons, List.mem_singleton, List.not_mem_nil, or_false] at hq
  rcases hq with rfl | rfl | rfl
  · exact prime_2
  · exact prime_3
  · exact prime_34123

theorem prime_14741173 : Nat.Prime 14741173 := by
  refine prime_of_lucasCheck _ 2 [2, 3, 409477] (by norm_num) ?_ (by decide)
  intro q hq
  simp only [List.mem_cons, List.mem_singleton, List.not_mem_nil, or_false] at hq
  rcases hq with rfl | rfl | rfl
  · exact prime_2
  · exact prime_3
  · exact prime_409477

theorem prime_58964693 : Nat.Prime 58964693 := by
  refine prime_of_lucasCheck _ 2 [2, 14741173] (by norm_num) ?_ (by decide)
  intro q hq
  simp only [List.mem_cons, List.mem_singleton, List.not_mem_nil, or_false] at hq
  rcases hq with rfl | rfl
  · exact prime_2
  · exact prime_14741173

theorem prime_30703 : Nat.Prime 30703 := by
  refine prime_of_lucasCheck _ 3 [2, 3, 7, 17, 43] (by norm_num) ?_ (by decide)
  intro q hq
  simp only [List.mem_cons, List.mem_singleton, List.not_mem_nil, or_false] at hq
  rcases hq with rfl | rfl | rfl | rfl | rfl
  · exact prime_2
  · exact prime_3
  · exact prime_7
  · exact prime_17
  · exact prime_43

theorem prime_79 : Nat.Prime 79 := by norm_num

theorem prime_41081 : Nat.Prime 41081 := by
  refine prime_of_lucasCheck _ 3 [2, 5, 13, 79] (by norm_num) ?_ (by decide)
  intro q hq
  simp only [List.mem_cons, List.mem_singleton, List.not_mem_nil, or_false] at hq
  rcases hq with rfl | rfl | rfl | rfl
  · exact prime_2
  · exact prime_5
  · exact prime_13
  · exact prime_79

theorem prime_82163 : Nat.Prime 82163 := by
  refine prime_of_lucasCheck _ 2 [2, 41081] (by norm_num) ?_ (by decide)
  intro q hq
  simp only [List.mem_cons, List.mem_singleton, List.not_mem_nil, or_false] at hq
  rcases hq with rfl | rfl
  · exact prime_2
  · exact prime_41081

theorem prime_67 : Nat.Prime 67 := by norm_num

theorem prime_22111 : Nat.Prime 22111 := by
  refine prime_of_lucasCheck _ 6 [2, 3, 5, 11, 67] (by norm_num) ?_ (by decide)
  intro q hq
  simp only [List.mem_cons, List.mem_singleton, List.not_mem_nil, or_false] at hq
  rcases hq with rfl | rfl | rfl | rfl | rfl
  · exact prime_2
  · exact prime_3
  · exact prime_5
  · exact prime_11
  · exact prime_67

theorem prime_132667 : Nat.Prime 132667 := by
  refine prime_of_lucasCheck _ 5 [2, 3, 22111] (by norm_num) ?_ (by decide)
  intro q hq
  simp only [List.mem_cons, List.mem_singleton, List.not_mem_nil, or_false] at hq
  rcases hq with rfl | rfl | rfl
  · exact prime_2
  · exact prime_3
  · exact prime_22111

theorem prime_17231 : Nat.Prime 17231 := by
  refine prime_of_lucasCheck _ 13 [2, 5, 1723] (by norm_num) ?_ (by decide)
  intro q hq
  simp only [List.mem_cons, List.mem_singleton, List.not_mem_nil, or_false] at hq
  rcases hq with rfl | rfl | rfl
  · exact prime_2
  · exact prime_5
  · exact prime_1723

theorem prime_137849 : Nat.Prime 137849 := by
  refine prime_of_lucasCheck _ 3 [2, 17231] (by norm_num) ?_ (by decide)
  intro q hq
  simp only [List.mem_cons, List.mem_singleton, List.not_mem_nil, or_false] at hq
  rcases hq with rfl | rfl
  · exact prime_2
  · exact prime_17231

theorem prime_3044861653679985063343 : Nat.Prime 3044861653679985063343 := by
  refine prime_of_lucasCheck _ 5 [2, 3, 11, 30703, 82163, 132667, 137849] (by norm_num) ?_ (by decide)
  intro q hq
  simp only [List.mem_cons, List.mem_singleton, List.not_mem_nil, or_false] at hq
  rcases hq with rfl | rfl | rfl | rfl | rfl | rfl | rfl
  · exact prime_2
  · exact prime_3
  · exact prime_11
  · exact prime_30703
  · exact prime_82163
  · exact prime_132667
  · exact prime_137849

theorem prime_198211423230930754013084525763697 : Nat.Prime 198211423230930754013084525763697 := by
  refine prime_of_lucasCheck _ 5 [2, 3, 23, 58964693, 3044861653679985063343] (by norm_num) ?_ (by decide)
  intro q hq
  simp only [List.mem_cons, List.mem_singleton, List.not_mem_nil, or_false] at hq
  rcases hq with rfl | rfl | rfl | rfl | rfl
  · exact prime_2
  · exact prime_3
  · exact prime_23
  · exact prime_58964693
  · exact prime_3044861653679985063343

theorem prime_269 : Nat.Prime 269 := by norm_num

theorem prime_73 : Nat.Prime 73 := by norm_num

theorem prime_307 : Nat.Prime 307 := by norm_num

theorem prime_113 : Nat.Prime 113 := by norm_num

theorem prime_2939 : Nat.Prime 2939 := by
  refine prime_of_lucasCheck _ 2 [2, 13, 113] (by norm_num) ?_ (by decide)
  intro q hq
  simp only [List.mem_cons, List.mem_singleton, List.not_mem_nil, or_false] at hq
  rcases hq with rfl | rfl | rfl
  · exact prime_2
  · exact prime_13
  · exact prime_113

theorem prime_5879 : Nat.Prime 5879 := by
  refine prime_of_lucasCheck _ 11 [2, 2939] (by norm_num) ?_ (by decide)
  intro q hq
  simp only [List.mem_cons, List.mem_singleton, List.not_mem_nil, or_false] at hq
  rcases hq with rfl | rfl
  · exact prime_2
  · exact prime_2939

theorem prime_292386187 : Nat.Prime 292386187 := by
  refine prime_of_lucasCheck _ 2 [2, 3, 307, 5879] (by norm_num) ?_ (by decide)
  intro q hq
  simp only [List.mem_cons, List.mem_singleton, List.not_mem_nil, or_false] at hq
  rcases hq with rfl | rfl | rfl | rfl
  · exact prime_2
  · exact prime_3
  · exact prime_307
  · exact prime_5879

theorem prime_213441916511 : Nat.Prime 213441916511 := by
  refine prime_of_lucasCheck _ 13 [2, 5, 73, 292386187] (by norm_num) ?_ (by decide)
  intro q hq
  simp only [List.mem_cons, List.mem_singleton, List.not_mem_nil, or_false] at hq
  rcases hq with rfl | rfl | rfl | rfl
  · exact prime_2
  · exact prime_5
  · exact prime_73
  · exact prime_292386187

theorem prime_1361 : Nat.Prime 1361 := by
  refine prime_of_lucasCheck _ 3 [2, 5, 17] (by norm_num) ?_ (by decide)
  intro q hq
  simp only [List.mem_cons, List.mem_singleton, List.not_mem_nil, or_false] at hq
  rcases hq with rfl | rfl | rfl
  · exact prime_2
  · exact prime_5
  · exact prime_17

theorem prime_2851 : Nat.Prime 2851 := by
  refine prime_of_lucasCheck _ 2 [2, 3, 5, 19] (by norm_num) ?_ (by decide)
  intro q hq
  simp only [List.mem_cons, List.mem_singleton, List.not_mem_nil, or_false] at hq
  rcases hq with rfl | rfl | rfl | rfl
  · exact prime_2
  · exact prime_3
  · exact prime_5
  · exact prime_19

theorem prime_3797 : Nat.Prime 3797 := by
  refine prime_of_lucasCheck _ 2 [2, 13, 73] (by norm_num) ?_ (by decide)
  intro q hq
  simp only [List.mem_cons, List.mem_singleton, List.not_mem_nil, or_false] at hq
  rcases hq with rfl | rfl | rfl
  · exact prime_2
  · exact prime_13
  · exact prime_73

theorem prime_531581 : Nat.Prime 531581 := by
  refine prime_of_lucasCheck _ 2 [2, 5, 7, 3797] (by norm_num) ?_ (by decide)
  intro q hq
  simp only [List.mem_cons, List.mem_singleton, List.not_mem_nil, or_false] at hq
  rcases hq with rfl | rfl | rfl | rfl
  · exact prime_2
  · exact prime_5
  · exact prime_7
  · exact prime_3797

theorem prime_2551 : Nat.Prime 2551 := by
  refine prime_of_lucasCheck _ 6 [2, 3, 5, 17] (by norm_num) ?_ (by decide)
  intro q hq
  simp only [List.mem_cons, List.mem_singleton, List.not_mem_nil, or_false] at hq
  rcases hq with rfl | rfl | rfl | rfl
  · exact prime_2
  · exact prime_3
  · exact prime_5
  · exact prime_17

theorem prime_1224481 : Nat.Prime 1224481 := by
  refine prime_of_lucasCheck _ 13 [2, 3, 5, 2551] (by norm_num) ?_ (by decide)
  intro q hq
  simp only [List.mem_cons, List.mem_singleton, List.not_mem_nil, or_false] at hq
  rcases hq with rfl | rfl | rfl | rfl
  · exact prime_2
  · exact prime_3
  · exact prime_5
  · exact prime_2551

theorem prime_1257559732178653 : Nat.Prime 1257559732178653 := by
  refine prime_of_lucasCheck _ 2 [2, 3, 7, 23, 531581, 1224481] (by norm_num) ?_ (by decide)
  intro q hq
  simp only [List.mem_cons, List.mem_singleton, List.not_mem_nil, or_false] at hq
  rcases hq with rfl | rfl | rfl | rfl | rfl | rfl
  · exact prime_2
  · exact prime_3
  · exact prime_7
  · exact prime_23
  · exact prime_531581
  · exact prime_1224481

theorem prime_4434155615661930479 : Nat.Prime 4434155615661930479 := by
  refine prime_of_lucasCheck _ 17 [2, 41, 43, 1257559732178653] (by norm_num) ?_ (by decide)
  intro q hq
  simp only [List.mem_cons, List.mem_singleton, List.not_mem_nil, or_false] at hq
  rcases hq with rfl | rfl | rfl | rfl
  · exact prime_2
  · exact prime_41
  · exact prime_43
  · exact prime_1257559732178653

theorem prime_172054593956031949258510691 : Nat.Prime 172054593956031949258510691 := by
  refine prime_of_lucasCheck _ 2 [2, 5, 1361, 2851, 4434155615661930479] (by norm_num) ?_ (by decide)
  intro q hq
  simp only [List.mem_cons, List.mem_singleton, List.not_mem_nil, or_false] at hq
  rcases hq with rfl | rfl | rfl | rfl | rfl
  · exact prime_2
  · exact prime_5
  · exact prime_1361
  · exact prime_2851
  · exact prime_4434155615661930479

theorem prime_19757330305831588566944191468367130476339 : Nat.Prime 19757330305831588566944191468367130476339 := by
  refine prime_of_lucasCheck _ 2 [2, 269, 213441916511, 172054593956031949258510691] (by norm_num) ?_ (by decide)
  intro q hq
  simp only [List.mem_cons, List.mem_singleton, List.not_mem_nil, or_false] at hq
  rcases hq with rfl | rfl | rfl | rfl
  · exact prime_2
  · exact prime_269
  · exact prime_213441916511
  · exact prime_172054593956031949258510691

theorem prime_276602624281642239937218680557139826668747 : Nat.Prime 276602624281642239937218680557139826668747 := by
  refine prime_of_lucasCheck _ 2 [2, 7, 19757330305831588566944191468367130476339] (by norm_num) ?_ (by decide)
  intro q hq
  simp only [List.mem_cons, List.mem_singleton, List.not_mem_nil, or_false] at hq
  rcases hq with rfl | rfl | rfl
  · exact prime_2
  · exact prime_7
  · exact prime_19757330305831588566944191468367130476339

theorem prime_7237005577332262213973186563042994240857116359379907606001950938285454250989 : Nat.Prime 7237005577332262213973186563042994240857116359379907606001950938285454250989 := by
  refine prime_of_lucasCheck _ 2 [2, 3, 11, 198211423230930754013084525763697, 276602624281642239937218680557139826668747] (by norm_num) ?_ (by decide)
  intro q hq
  simp only [List.mem_cons, List.mem_singleton, List.not_mem_nil, or_false] at hq
  rcases hq with rfl | rfl | rfl | rfl | rfl
  · exact prime_2
  · exact prime_3
  · exact prime_11
  · exact prime_198211423230930754013084525763697
  · exact prime_276602624281642239937218680557139826668747

end Certificates

open WeierstrassCurve.Affine

section Curve
variable {F : Type} [Field F]

theorem curve_equation_iff (A x y : F) :
    (curve A).Equation x y ↔ y ^ 2 = x ^ 3 + A * x ^ 2 + x := by
  rw [WeierstrassCurve.Affine.equation_iff]
  simp [curve]

theorem curve_negY (A x y : F) : (curve A).negY x y = -y := by
  simp [curve]

theorem curve_nonsingular (A : F) (h2 : (2 : F) ≠ 0) (hA : A ^ 2 - 4 ≠ 0) {x y : F}
    (h : (curve A).Equation x y) : (curve A).Nonsingular x y := by
  rw [WeierstrassCurve.Affine.nonsingular_iff]
  refine ⟨h, ?_⟩
  rw [curve_equation_iff] at h
  by_cases hy : y = 0
  · left
    simp only [curve]
    intro h3
    apply hA
    subst hy
    linear_combination (-(-6 * A ^ 2 + 18) * x - (-4 * A ^ 3 + 15 * A)) * h
      - ((2 * A ^ 2 - 6) * x ^ 2 + (2 * A ^ 3 - 7 * A) * x + (A ^ 2 - 4)) * h3
  · right
    simp only [curve]
    intro h3
    apply hy
    have : 2 * y = 0 := by linear_combination h3
    rcases mul_eq_zero.1 this with h4 | h4
    · exact absurd h4 h2
    · exact h4

theorem curve_two_y_ne (A : F) (h2 : (2 : F) ≠ 0) {y : F} (hy : y ≠ 0) :
    y ≠ (curve A).negY 0 y ∧ y - -y ≠ 0 := by
  have h : y - -y ≠ 0 := by
    intro h
    have : 2 * y = 0 := by linear_combination h
    rcases mul_eq_zero.1 this with h4 | h4
    · exact h2 h4
    · exact hy h4
  refine ⟨?_, h⟩
  rw [curve_negY]
  intro h3
  apply h
  linear_combination h3

/-- The x-coordinate of the double of an affine point with `y ≠ 0`. -/
theorem double_x (A : F) (h2 : (2 : F) ≠ 0) {x y : F} (h : (curve A).Nonsingular x y)
    (hy : y ≠ 0) :
    ∃ (x3 y3 : F) (h3 : (curve A).Nonsingular x3 y3),
      Point.some h + Point.some h = Point.some h3 ∧ x3 * (4 * y ^ 2) = (x ^ 2 - 1) ^ 2 := by
  have hy2 : y - -y ≠ 0 := (curve_two_y_ne A h2 hy).2
  have hyn : y ≠ (curve A).negY x y := by
    rw [curve_negY]; intro h3; apply hy2; linear_combination h3
  refine ⟨_, _, _, Point.add_self_of_Y_ne hyn, ?_⟩
  have he := (curve_equation_iff A x y).1 h.1
  rw [slope_of_Y_ne rfl hyn, curve_negY]
  have hL : (3 * x ^ 2 + 2 * (curve A).a₂ * x + (curve A).a₄ - (curve A).a₁ * y) / (y - -y)
      * (2 * y) = 3 * x ^ 2 + 2 * A * x + 1 := by
    have h2y : 2 * y = y - -y := by ring
    rw [h2y, div_mul_cancel₀ _ hy2]
    simp [curve]
  generalize (3 * x ^ 2 + 2 * (curve A).a₂ * x + (curve A).a₄ - (curve A).a₁ * y) / (y - -y)
    = L at hL
  simp only [curve, addX]
  linear_combination (L * (2 * y) + (3 * x ^ 2 + 2 * A * x + 1)) * hL - 4 * (A + 2 * x) * he

/-- The x-coordinate of the sum of two affine points with distinct x. -/
theorem add_x (A : F) {x₁ y₁ x₂ y₂ : F} (h₁ : (curve A).Nonsingular x₁ y₁)
    (h₂ : (curve A).Nonsingular x₂ y₂) (hx : x₁ ≠ x₂) :
    ∃ (x3 y3 : F) (h3 : (curve A).Nonsingular x3 y3),
      Point.some h₁ + Point.some h₂ = Point.some h3 ∧
      x3 * (x₁ - x₂) ^ 2 = (y₁ - y₂) ^ 2 - (A + x₁ + x₂) * (x₁ - x₂) ^ 2 := by
  refine ⟨_, _, _, Point.add_of_X_ne hx, ?_⟩
  rw [slope_of_X_ne hx]
  have hd : x₁ - x₂ ≠ 0 := sub_ne_zero.2 hx
  have hL : (y₁ - y₂) / (x₁ - x₂) * (x₁ - x₂) = y₁ - y₂ := div_mul_cancel₀ _ hd
  generalize (y₁ - y₂) / (x₁ - x₂) = L at hL
  simp only [curve, addX]
  linear_combination (L * (x₁ - x₂) + (y₁ - y₂)) * hL

/-- The identity behind differential addition: the product of the x-coordinates
of `P₁ + P₂` and `P₁ - P₂`. -/
theorem diff_add_identity (A : F) {x₁ y₁ x₂ y₂ xs xd : F} (hx : x₁ ≠ x₂)
    (e₁ : y₁ ^ 2 = x₁ ^ 3 + A * x₁ ^ 2 + x₁) (e₂ : y₂ ^ 2 = x₂ ^ 3 + A * x₂ ^ 2 + x₂)
    (hs : xs * (x₁ - x₂) ^ 2 = (y₁ - y₂) ^ 2 - (A + x₁ + x₂) * (x₁ - x₂) ^ 2)
    (hd : xd * (x₁ - x₂) ^ 2 = (y₁ + y₂) ^ 2 - (A + x₁ + x₂) * (x₁ - x₂) ^ 2) :
    xs * xd * (x₁ - x₂) ^ 2 = (x₁ * x₂ - 1) ^ 2 := by
  have hne : (x₁ - x₂) ^ 2 ≠ 0 := pow_ne_zero 2 (sub_ne_zero.2 hx)
  apply mul_right_cancel₀ hne
  linear_combination (xd * (x₁ - x₂) ^ 2) * hs
    + ((y₁ - y₂) ^ 2 - (A + x₁ + x₂) * (x₁ - x₂) ^ 2) * hd
    + ((y₁ ^ 2 - y₂ ^ 2 + (x₁ ^ 3 + A * x₁ ^ 2 + x₁) - (x₂ ^ 3 + A * x₂ ^ 2 + x₂))
        - 2 * ((A + x₁ + x₂) * (x₁ - x₂) ^ 2)) * e₁
    + (-(y₁ ^ 2 - y₂ ^ 2 + (x₁ ^ 3 + A * x₁ ^ 2 + x₁) - (x₂ ^ 3 + A * x₂ ^ 2 + x₂))
        - 2 * ((A + x₁ + x₂) * (x₁ - x₂) ^ 2)) * e₂

theorem rep_zero {A : F} (X Z : F) : Rep (0 : (curve A).Point) X Z ↔ Z = 0 ∧ X ≠ 0 :=
  Iff.rfl

theorem rep_some {A : F} {x y : F} (h : (curve A).Nonsingular x y) (X Z : F) :
    Rep (Point.some h) X Z ↔ Z ≠ 0 ∧ X = x * Z :=
  Iff.rfl

theorem four_ne_zero_of_two (h2 : (2 : F) ≠ 0) : (4 : F) ≠ 0 := by
  have : (4 : F) = 2 * 2 := by norm_num
  rw [this]
  exact mul_ne_zero h2 h2

theorem rep_double {A a24 : F} (h2 : (2 : F) ≠ 0) (hA : A ^ 2 - 4 ≠ 0)
    (h24 : 4 * a24 = A - 2) (Q : (curve A).Point) (X Z : F) (h : Rep Q X Z) :
    Rep (Q + Q) (dblX X Z) (dblZ a24 X Z) := by
  have hZ : dblZ a24 X Z = 4 * X * Z * (X ^ 2 + A * X * Z + Z ^ 2) := by
    simp only [dblZ]
    linear_combination (X * Z * (4 * X * Z)) * h24
  have hX : dblX X Z = (X ^ 2 - Z ^ 2) ^ 2 := by
    simp only [dblX]; ring
  have h4 := four_ne_zero_of_two h2
  rcases Q with _ | ⟨hQ⟩
  · obtain ⟨hz, hx⟩ := h
    rw [Point.zero_def, add_zero, rep_zero, hZ, hX, hz]
    refine ⟨by ring, ?_⟩
    simpa using hx
  · rename_i x y
    obtain ⟨hz, hx⟩ := h
    have he := (curve_equation_iff A x y).1 hQ.1
    by_cases hy : y = 0
    · have hyn : y = (curve A).negY x y := by rw [curve_negY, hy, neg_zero]
      rw [Point.add_self_of_Y_eq hyn, rep_zero, hZ, hX, hx]
      rw [hy] at he
      constructor
      · linear_combination (-(4 * Z ^ 4)) * he
      · have hx1 : x ^ 2 - 1 ≠ 0 := by
          intro hx1
          apply hA
          linear_combination (-(A - 2 * x)) * he + (4 - (A - 2 * x) * (x + A)) * hx1
        have : ((x * Z) ^ 2 - Z ^ 2) ^ 2 = (Z ^ 2 * (x ^ 2 - 1)) ^ 2 := by ring
        rw [this]
        exact pow_ne_zero 2 (mul_ne_zero (pow_ne_zero 2 hz) hx1)
    · obtain ⟨x3, y3, h3, hsum, hform⟩ := double_x A h2 hQ hy
      rw [hsum, rep_some, hZ, hX, hx]
      constructor
      · have : 4 * (x * Z) * Z * ((x * Z) ^ 2 + A * (x * Z) * Z + Z ^ 2)
            = 4 * Z ^ 4 * y ^ 2 := by
          linear_combination (-(4 * Z ^ 4)) * he
        rw [this]
        exact mul_ne_zero (mul_ne_zero h4 (pow_ne_zero 4 hz)) (pow_ne_zero 2 hy)
      · linear_combination (-(Z ^ 4)) * hform + (4 * x3 * Z ^ 4) * he

theorem dadX_eq (X2 Z2 X3 Z3 : F) :
    dadX X2 Z2 X3 Z3 = 4 * (X2 * X3 - Z2 * Z3) ^ 2 := by
  simp only [dadX]; ring

theorem dadZ_eq (x1 X2 Z2 X3 Z3 : F) :
    dadZ x1 X2 Z2 X3 Z3 = 4 * x1 * (X3 * Z2 - X2 * Z3) ^ 2 := by
  simp only [dadZ]; ring

theorem rep_dadd {A : F} (h2 : (2 : F) ≠ 0) {x1 y1 : F}
    (hP : (curve A).Nonsingular x1 y1) (hx1 : x1 ≠ 0)
    (Q2 Q3 : (curve A).Point) (hd : Q3 = Q2 + Point.some hP)
    (X2 Z2 X3 Z3 : F) (r2 : Rep Q2 X2 Z2) (r3 : Rep Q3 X3 Z3) :
    Rep (Q2 + Q3) (dadX X2 Z2 X3 Z3) (dadZ x1 X2 Z2 X3 Z3) := by
  have h4 := four_ne_zero_of_two h2
  rw [dadX_eq, dadZ_eq]
  rcases Q2 with _ | ⟨hQ2⟩
  · rw [Point.zero_def, zero_add] at hd
    subst hd
    rw [Point.zero_def, zero_add, rep_some]
    obtain ⟨hz2, hX2⟩ := r2
    obtain ⟨hz3, hX3⟩ := r3
    rw [hz2, hX3]
    constructor
    · have : 4 * x1 * (x1 * Z3 * 0 - X2 * Z3) ^ 2 = 4 * x1 * (X2 * Z3) ^ 2 := by ring
      rw [this]
      exact mul_ne_zero (mul_ne_zero h4 hx1) (pow_ne_zero 2 (mul_ne_zero hX2 hz3))
    · ring
  · rename_i x2 y2
    obtain ⟨hz2, hX2⟩ := r2
    have he2 := (curve_equation_iff A x2 y2).1 hQ2.1
    rcases Q3 with _ | ⟨hQ3⟩
    · rw [Point.zero_def] at hd ⊢
      have hneg : Point.some hQ2 = -Point.some hP := eq_neg_of_add_eq_zero_left hd.symm
      rw [Point.neg_some] at hneg
      have hxx : x2 = x1 := (Point.some.inj hneg).1
      obtain ⟨hz3, hX3⟩ := r3
      rw [add_zero, rep_some, hz3, hX2, hxx]
      constructor
      · have : 4 * x1 * (X3 * Z2 - x1 * Z2 * 0) ^ 2 = 4 * x1 * (X3 * Z2) ^ 2 := by ring
        rw [this]
        exact mul_ne_zero (mul_ne_zero h4 hx1) (pow_ne_zero 2 (mul_ne_zero hX3 hz2))
      · ring
    · rename_i x3 y3
      obtain ⟨hz3, hX3⟩ := r3
      have he3 := (curve_equation_iff A x3 y3).1 hQ3.1
      have hPd : Point.some hP = Point.some hQ3 + -Point.some hQ2 := by
        rw [hd]; abel
      rw [Point.neg_some] at hPd
      by_cases hx : x2 = x3
      · have hyy : y2 = (curve A).negY x3 y3 := by
          rcases Y_eq_of_X_eq hQ2.1 hQ3.1 hx with hy | hy
          · exfalso
            subst hx
            subst hy
            have : Point.some hP = 0 := by
              have h0 := hd
              rw [self_eq_add_right] at h0
              exact h0
            exact Point.some_ne_zero hP this
          · exact hy
        rw [Point.add_of_Y_eq hx hyy, rep_zero, hX2, hX3, hx]
        have hy3 : y3 ≠ 0 := by
          intro hy3
          have hc : x3 = x2 ∧ y3 = (curve A).negY x2 ((curve A).negY x2 y2) := by
            refine ⟨hx.symm, ?_⟩
            rw [negY_negY, hyy, curve_negY, hy3, neg_zero]
          rw [Point.add_of_Y_eq hc.1 hc.2] at hPd
          exact Point.some_ne_zero hP hPd
        obtain ⟨x4, y4, h4', hsum, hform⟩ := double_x A h2 hQ3 hy3
        have hneg2 : Point.some (nonsingular_neg hQ2) = Point.some hQ3 := by
          subst hx
          have : (curve A).negY x2 y2 = y3 := by
            rw [hyy, negY_negY]
          subst this
          rfl
        rw [hneg2, hsum] at hPd
        have hx14 : x1 = x4 := (Point.some.inj hPd).1
        constructor
        · ring
        · have hne : x3 ^ 2 - 1 ≠ 0 := by
            intro h0
            apply hx1
            have h5 : x4 * (4 * y3 ^ 2) = 0 := by rw [hform, h0]; ring
            rcases mul_eq_zero.1 h5 with h6 | h6
            · rw [hx14]; exact h6
            · exfalso
              exact (mul_ne_zero h4 (pow_ne_zero 2 hy3)) h6
          have : 4 * (x3 * Z2 * (x3 * Z3) - Z2 * Z3) ^ 2 = 4 * (Z2 * Z3 * (x3 ^ 2 - 1)) ^ 2 := by
            ring
          rw [this]
          exact mul_ne_zero h4 (pow_ne_zero 2 (mul_ne_zero (mul_ne_zero hz2 hz3) hne))
      · obtain ⟨xs, ys, hs, hsum, hsform⟩ := add_x A hQ2 hQ3 hx
        obtain ⟨xd, yd, hdd, hdsum, hdform⟩ := add_x A hQ3 (nonsingular_neg hQ2) (Ne.symm hx)
        rw [hdsum] at hPd
        have hx1d : x1 = xd := (Point.some.inj hPd).1
        rw [curve_negY] at hdform
        have hdform2 : xd * (x2 - x3) ^ 2
            = (y2 + y3) ^ 2 - (A + x2 + x3) * (x2 - x3) ^ 2 := by
          linear_combination hdform
        have key := diff_add_identity A hx he2 he3 hsform hdform2
        rw [hsum, rep_some, hX2, hX3, hx1d]
        constructor
        · have : 4 * xd * (x3 * Z3 * Z2 - x2 * Z2 * Z3) ^ 2
              = 4 * xd * (Z2 * Z3 * (x3 - x2)) ^ 2 := by ring
          rw [this, ← hx1d]
          exact mul_ne_zero (mul_ne_zero h4 hx1) (pow_ne_zero 2
            (mul_ne_zero (mul_ne_zero hz2 hz3) (sub_ne_zero.2 (Ne.symm hx))))
        · linear_combination (-(4 * Z2 ^ 2 * Z3 ^ 2)) * key

end Curve

/-! ## The field of Curve25519 -/

theorem P_prime : Nat.Prime P := by
  have h : P = 57896044618658097711785492504343953926634992332820282019728792003956564819949 := by
    norm_num [P]
  rw [h]
  exact prime_57896044618658097711785492504343953926634992332820282019728792003956564819949

instance P_fact : Fact (Nat.Prime P) := ⟨P_prime⟩

theorem cast_fadd (a b : Nat) : ((fadd a b : Nat) : ZMod P) = a + b := by
  simp [fadd, ZMod.natCast_mod]

theorem cast_fmul (a b : Nat) : ((fmul a b : Nat) : ZMod P) = a * b := by
  simp [fmul, ZMod.natCast_mod]

theorem cast_fsub (a b : Nat) : ((fsub a b : Nat) : ZMod P) = a - b := by
  have hle : b % P ≤ P := (Nat.mod_lt b P_prime.pos).le
  simp [fsub, ZMod.natCast_mod, Nat.cast_sub hle, sub_eq_add_neg]

theorem natCast_ne_zero_of_lt (n : Nat) (h0 : 0 < n) (hlt : n < P) : (n : ZMod P) ≠ 0 := by
  intro h
  rw [ZMod.natCast_zmod_eq_zero_iff_dvd] at h
  exact absurd (Nat.le_of_dvd h0 h) (not_le.2 hlt)

theorem natCast_inj_of_lt {a b : Nat} (ha : a < P) (hb : b < P)
    (h : (a : ZMod P) = (b : ZMod P)) : a = b := by
  rw [ZMod.natCast_eq_natCast_iff', Nat.mod_eq_of_lt ha, Nat.mod_eq_of_lt hb] at h
  exact h

theorem two_ne_zero_Fp : (2 : ZMod P) ≠ 0 := by
  have := natCast_ne_zero_of_lt 2 (by norm_num) (by norm_num [P])
  simpa using this

theorem curveA_sq_ne : curveA ^ 2 - 4 ≠ 0 := by
  have := natCast_ne_zero_of_lt (486662 ^ 2 - 4) (by norm_num) (by norm_num [P])
  have h2 : ((486662 ^ 2 - 4 : Nat) : ZMod P) = curveA ^ 2 - 4 := by
    simp only [curveA]
    norm_num
  rwa [h2] at this

theorem a24_eq : 4 * ((A24 : Nat) : ZMod P) = curveA - 2 := by
  simp only [A24, curveA]
  norm_num

/-! ## The ladder computes scalar multiples -/

theorem ladderStep_cast_false (x1 k : Nat) (s : Ladder) (t : Nat)
    (hb : ((k >>> t) &&& 1 == 1) = false) :
    ((ladderStep x1 k s t).lo.1 : ZMod P) = dblX (s.lo.1 : ZMod P) s.lo.2 ∧
    ((ladderStep x1 k s t).lo.2 : ZMod P) = dblZ ((A24 : Nat) : ZMod P) s.lo.1 s.lo.2 ∧
    ((ladderStep x1 k s t).hi.1 : ZMod P) = dadX (s.lo.1 : ZMod P) s.lo.2 s.hi.1 s.hi.2 ∧
    ((ladderStep x1 k s t).hi.2 : ZMod P) =
      dadZ (x1 : ZMod P) s.lo.1 s.lo.2 s.hi.1 s.hi.2 := by
  obtain ⟨x2, z2, x3, z3, sw⟩ := s
  simp only [ladderStep, hb]
  cases sw <;>
    simp [Ladder.lo, Ladder.hi, cswap, cast_fadd, cast_fsub, cast_fmul,
      dblX, dblZ, dadX, dadZ] <;> ring_nf <;> simp

theorem ladderStep_cast_true (x1 k : Nat) (s : Ladder) (t : Nat)
    (hb : ((k >>> t) &&& 1 == 1) = true) :
    ((ladderStep x1 k s t).hi.1 : ZMod P) = dblX (s.hi.1 : ZMod P) s.hi.2 ∧
    ((ladderStep x1 k s t).hi.2 : ZMod P) = dblZ ((A24 : Nat) : ZMod P) s.hi.1 s.hi.2 ∧
    ((ladderStep x1 k s t).lo.1 : ZMod P) = dadX (s.lo.1 : ZMod P) s.lo.2 s.hi.1 s.hi.2 ∧
    ((ladderStep x1 k s t).lo.2 : ZMod P) =
      dadZ (x1 : ZMod P) s.lo.1 s.lo.2 s.hi.1 s.hi.2 := by
  obtain ⟨x2, z2, x3, z3, sw⟩ := s
  simp only [ladderStep, hb]
  cases sw <;>
    simp [Ladder.lo, Ladder.hi, cswap, cast_fadd, cast_fsub, cast_fmul,
      dblX, dblZ, dadX, dadZ] <;> ring_nf <;> simp

theorem dadX_symm {F : Type} [CommRing F] (X2 Z2 X3 Z3 : F) :
    dadX X2 Z2 X3 Z3 = dadX X3 Z3 X2 Z2 := by
  simp only [dadX]; ring

theorem ladderStep_inv {x1 y1 : ZMod P} (hP : Curve25519.Nonsingular x1 y1) (hx1 : x1 ≠ 0)
    (x1n : Nat) (hc : (x1n : ZMod P) = x1) (k t n : Nat) (s : Ladder)
    (hlo : Rep (n • Point.some hP) (s.lo.1 : ZMod P) (s.lo.2 : ZMod P))
    (hhi : Rep ((n + 1) • Point.some hP) (s.hi.1 : ZMod P) (s.hi.2 : ZMod P)) :
    Rep ((2 * n + (k >>> t) % 2) • Point.some hP)
        ((ladderStep x1n k s t).lo.1 : ZMod P) ((ladderStep x1n k s t).lo.2 : ZMod P) ∧
      Rep ((2 * n + (k >>> t) % 2 + 1) • Point.some hP)
        ((ladderStep x1n k s t).hi.1 : ZMod P) ((ladderStep x1n k s t).hi.2 : ZMod P) := by
  have hsucc : (n + 1) • Point.some hP = n • Point.some hP + Point.some hP := succ_nsmul _ _
  have hadd := rep_dadd two_ne_zero_Fp hP hx1 _ _ hsucc _ _ _ _ hlo hhi
  have hsum : n • Point.some hP + (n + 1) • Point.some hP = (2 * n + 1) • Point.some hP := by
    rw [← add_nsmul]; congr 1; ring
  rw [hsum] at hadd
  by_cases hb : ((k >>> t) &&& 1 == 1) = true
  · have hbit : (k >>> t) % 2 = 1 := by
      rw [← Nat.and_one_is_mod]; simpa using hb
    obtain ⟨e1, e2, e3, e4⟩ := ladderStep_cast_true x1n k s t hb
    rw [hbit, e1, e2, e3, e4, hc]
    refine ⟨hadd, ?_⟩
    have hdbl := rep_double two_ne_zero_Fp curveA_sq_ne a24_eq _ _ _ hhi
    rw [← add_nsmul] at hdbl
    have : n + 1 + (n + 1) = 2 * n + 1 + 1 := by ring
    rw [this] at hdbl
    exact hdbl
  · have hb2 : ((k >>> t) &&& 1 == 1) = false := by simpa using hb
    have hbit : (k >>> t) % 2 = 0 := by
      rw [← Nat.and_one_is_mod]
      have h3 : ¬ ((k >>> t) &&& 1 = 1) := by simpa using hb
      rw [Nat.and_one_is_mod] at h3 ⊢
      omega
    obtain ⟨e1, e2, e3, e4⟩ := ladderStep_cast_false x1n k s t hb2
    rw [hbit, e1, e2, e3, e4, hc]
    refine ⟨?_, hadd⟩
    have hdbl := rep_double two_ne_zero_Fp curveA_sq_ne a24_eq _ _ _ hlo
    rw [← add_nsmul] at hdbl
    have : n + n = 2 * n + 0 := by ring
    rw [this] at hdbl
    exact hdbl

theorem ladderLoop_inv {x1 y1 : ZMod P} (hP : Curve25519.Nonsingular x1 y1) (hx1 : x1 ≠ 0)
    (x1n : Nat) (hc : (x1n : ZMod P) = x1) (k : Nat) :
    ∀ (t : Nat) (s : Ladder),
      Rep ((k >>> t) • Point.some hP) (s.lo.1 : ZMod P) (s.lo.2 : ZMod P) →
      Rep ((k >>> t + 1) • Point.some hP) (s.hi.1 : ZMod P) (s.hi.2 : ZMod P) →
      Rep (k • Point.some hP)
          ((ladderLoop x1n k t s).lo.1 : ZMod P) ((ladderLoop x1n k t s).lo.2 : ZMod P) ∧
        Rep ((k + 1) • Point.some hP)
          ((ladderLoop x1n k t s).hi.1 : ZMod P) ((ladderLoop x1n k t s).hi.2 : ZMod P) := by
  intro t
  induction t with
  | zero =>
    intro s hlo hhi
    simpa [ladderLoop] using And.intro hlo hhi
  | succ t ih =>
    intro s hlo hhi
    have hstep := ladderStep_inv hP hx1 x1n hc k t _ s hlo hhi
    have hsh : 2 * (k >>> (t + 1)) + (k >>> t) % 2 = k >>> t := by
      rw [Nat.shiftRight_succ]
      omega
    rw [hsh] at hstep
    exact ih _ hstep.1 hstep.2

/-- The ladder, started on the x-coordinate of an affine point `Q` with
`x ≠ 0`, ends on the projective x-coordinate of `k • Q`. -/
theorem ladderXZ_rep {x1 y1 : ZMod P} (hP : Curve25519.Nonsingular x1 y1) (hx1 : x1 ≠ 0)
    (x1n : Nat) (hc : (x1n : ZMod P) = x1) (k : Nat) (hk : k < 2 ^ 255) :
    Rep (k • Point.some hP) ((ladderXZ k x1n).1 : ZMod P) ((ladderXZ k x1n).2 : ZMod P) := by
  have h0 : k >>> 255 = 0 := by
    rw [Nat.shiftRight_eq_div_pow]
    exact Nat.div_eq_of_lt hk
  have := ladderLoop_inv hP hx1 x1n hc k 255 ⟨1, 0, x1n, 1, false⟩
    (by
      rw [h0, zero_nsmul]
      simp [Ladder.lo, cswap, rep_zero])
    (by
      rw [h0, zero_add, one_nsmul]
      simp [Ladder.hi, cswap, rep_some, hc])
  exact this.1

/-! ## The X25519 function as scalar multiplication -/

theorem finv_cast (z : Nat) : ((finv z : Nat) : ZMod P) = (z : ZMod P) ^ (P - 2) := by
  rw [finv, powMod_eq P 255 z (P - 2) (by norm_num [P]), ZMod.natCast_mod, Nat.cast_pow]

theorem fmul_lt (a b : Nat) : fmul a b < P := Nat.mod_lt _ P_prime.pos

theorem X25519_lt (k u : Nat) : X25519 k u < P := fmul_lt _ _

theorem X25519_mod (k u : Nat) : X25519 k (u % P) = X25519 k u := by
  simp [X25519, Nat.mod_mod]

theorem rep_zero_of_cast_zero {Q : Curve25519.Point} {X : ZMod P} {z : Nat}
    (h : Rep Q X (z : ZMod P)) (hz : z = 0) : Q = 0 := by
  subst hz
  rcases Q with _ | ⟨hQ⟩
  · rfl
  · exact absurd (by simp) h.1

/-- The X25519 function of a scalar `k` and the x-coordinate of a point `Q`
with `x ≠ 0` is the x-coordinate of `k • Q`. -/
theorem X25519_cast {x1 y1 : ZMod P} (hP : Curve25519.Nonsingular x1 y1) (hx1 : x1 ≠ 0)
    (u : Nat) (hc : (u : ZMod P) = x1) (k : Nat) (hk : k < 2 ^ 255) :
    ((X25519 k u : Nat) : ZMod P) = xOf (k • Point.some hP) := by
  have hc2 : ((u % P : Nat) : ZMod P) = x1 := by rw [ZMod.natCast_mod, hc]
  have hrep := ladderXZ_rep hP hx1 (u % P) hc2 k hk
  simp only [X25519, cast_fmul, finv_cast]
  generalize k • Point.some hP = R at hrep ⊢
  rcases R with _ | ⟨hR⟩
  · obtain ⟨hz, -⟩ := hrep
    rw [hz, zero_pow (by norm_num [P]), mul_zero]
    rfl
  · obtain ⟨hz, hx⟩ := hrep
    rw [hx]
    simp only [xOf]
    have hfermat := ZMod.pow_card_sub_one_eq_one hz
    have hsplit : P - 1 = (P - 2) + 1 := by norm_num [P]
    rw [hsplit, pow_succ] at hfermat
    rw [mul_assoc, mul_comm _ (_ ^ (P - 2)), hfermat, mul_one]

/-! ### The ladder on the u-coordinate `0` -/

theorem ladderStep_zero (k t : Nat) (s : Ladder)
    (h2 : (s.x2 : ZMod P) * s.z2 = 0) (h3 : (s.x3 : ZMod P) * s.z3 = 0) :
    ((ladderStep 0 k s t).z2 : ZMod P) = 0 ∧ ((ladderStep 0 k s t).z3 : ZMod P) = 0 := by
  obtain ⟨x2, z2, x3, z3, sw⟩ := s
  simp only at h2 h3
  simp only [ladderStep, cast_fmul, cast_fsub, cast_fadd, Nat.cast_zero, zero_mul, and_true]
  have e : ∀ (a b : ZMod P), a * b = 0 → ((a + b) * (a + b) - (a - b) * (a - b)) = 0 := by
    intro a b hab
    linear_combination 4 * hab
  cases sw <;> cases hb : ((k >>> t) &&& 1 == 1) <;> simp [cswap, e _ _ h2, e _ _ h3]

theorem ladderLoop_zero (k : Nat) : ∀ (t : Nat) (s : Ladder),
    (s.x2 : ZMod P) * s.z2 = 0 → (s.x3 : ZMod P) * s.z3 = 0 →
    ((ladderLoop 0 k t s).x2 : ZMod P) * (ladderLoop 0 k t s).z2 = 0 ∧
      ((ladderLoop 0 k t s).x3 : ZMod P) * (ladderLoop 0 k t s).z3 = 0 := by
  intro t
  induction t with
  | zero => intro s h2 h3; exact ⟨h2, h3⟩
  | succ t ih =>
    intro s h2 h3
    obtain ⟨e2, e3⟩ := ladderStep_zero k t s h2 h3
    exact ih _ (by rw [e2, mul_zero]) (by rw [e3, mul_zero])

/-- On the u-coordinate `0` the X25519 function returns `0`. -/
theorem X25519_zero (k u : Nat) (hu : u % P = 0) : X25519 k u = 0 := by
  have hl := ladderLoop_zero k 255 ⟨1, 0, 0, 1, false⟩ (by simp) (by simp)
  have hcast : ((X25519 k u : Nat) : ZMod P) = ((0 : Nat) : ZMod P) := by
    simp only [X25519, ladderXZ, hu, cast_fmul, finv_cast, Nat.cast_zero]
    generalize ladderLoop 0 k 255 ⟨1, 0, 0, 1, false⟩ = s at hl
    have key : ∀ (a b : ZMod P), a * b = 0 → a * b ^ (P - 2) = 0 := by
      intro a b hab
      rcases mul_eq_zero.1 hab with h | h
      · rw [h, zero_mul]
      · rw [h, zero_pow (by norm_num [P]), mul_zero]
    cases hs : s.swap
    · simpa [cswap] using key _ _ hl.1
    · simpa [cswap] using key _ _ hl.2
  exact natCast_inj_of_lt (X25519_lt k u) P_prime.pos hcast

/-! ## The base point and its order -/

theorem baseOrder_prime : Nat.Prime baseOrder := by
  have h : baseOrder =
      7237005577332262213973186563042994240857116359379907606001950938285454250989 := by
    norm_num [baseOrder]
  rw [h]
  exact prime_7237005577332262213973186563042994240857116359379907606001950938285454250989

theorem base_nonsingular : Curve25519.Nonsingular (9 : ZMod P) (baseY : ZMod P) := by
  apply curve_nonsingular curveA two_ne_zero_Fp curveA_sq_ne
  rw [curve_equation_iff]
  have h : (baseY ^ 2) % P = (9 ^ 3 + 486662 * 9 ^ 2 + 9) % P := by
    norm_num [baseY, P]
  have h2 := (ZMod.natCast_eq_natCast_iff' _ _ _).2 h
  push_cast at h2
  simpa [curveA] using h2

theorem nine_ne_zero_Fp : (9 : ZMod P) ≠ 0 := by
  have := natCast_ne_zero_of_lt 9 (by norm_num) (by norm_num [P])
  simpa using this

theorem seqNat_eq {α : Type} (n : Nat) (f : Nat → α) : seqNat n f = f n := by
  cases n <;> rfl

theorem ladderLoopS_eq (x1 k : Nat) : ∀ (t : Nat) (s : Ladder),
    ladderLoopS x1 k t s = ladderLoop x1 k t s := by
  intro t
  induction t with
  | zero => intro s; rfl
  | succ t ih =>
    intro s
    simp only [ladderLoopS, seqNat_eq, ih, ladderLoop]

theorem ladderXZS_eq (k u : Nat) : ladderXZS k u = ladderXZ k u := by
  simp only [ladderXZS, ladderXZ, ladderLoopS_eq]

set_option maxRecDepth 100000 in
theorem ladderS_baseOrder : (ladderXZS baseOrder 9).2 = 0 := by decide

theorem ladder_baseOrder : (ladderXZ baseOrder 9).2 = 0 := by
  rw [← ladderXZS_eq]
  exact ladderS_baseOrder

theorem nine_cast : ((9 : Nat) : ZMod P) = 9 := by simp

theorem baseOrder_lt : baseOrder < 2 ^ 255 := by norm_num [baseOrder]

/-- When the ladder ends with `z_2 = 0`, the multiple is the point at infinity. -/
theorem nsmul_eq_zero_of_ladder {x1 y1 : ZMod P} (hP : Curve25519.Nonsingular x1 y1)
    (hx1 : x1 ≠ 0) (u : Nat) (hc : (u : ZMod P) = x1) (k : Nat) (hk : k < 2 ^ 255)
    (hz : (ladderXZ k u).2 = 0) : k • Point.some hP = 0 :=
  rep_zero_of_cast_zero (ladderXZ_rep hP hx1 u hc k hk) hz

theorem baseOrder_nsmul : baseOrder • Point.some base_nonsingular = 0 :=
  nsmul_eq_zero_of_ladder base_nonsingular nine_ne_zero_Fp 9 nine_cast baseOrder baseOrder_lt
    ladder_baseOrder

theorem nsmul_base_eq_zero_iff (n : Nat) :
    n • Point.some base_nonsingular = 0 ↔ baseOrder ∣ n := by
  haveI : Fact (Nat.Prime baseOrder) := ⟨baseOrder_prime⟩
  have h := addOrderOf_eq_prime baseOrder_nsmul (Point.some_ne_zero base_nonsingular)
  rw [← h, addOrderOf_dvd_iff_nsmul_eq_zero]

theorem clamped_not_dvd {n : Nat} (hn : Clamped n) (m : Nat) (hm : m ∣ 16) :
    ¬ baseOrder ∣ m * n := by
  obtain ⟨h1, h2, h3⟩ := hn
  intro hd
  have hodd : ¬ baseOrder ∣ 2 := by
    intro h
    have := Nat.le_of_dvd (by norm_num) h
    norm_num [baseOrder] at this
  have hcop2 : Nat.Coprime baseOrder 2 :=
    (Nat.Prime.coprime_iff_not_dvd baseOrder_prime).2 hodd
  have hcop16 : Nat.Coprime baseOrder 16 := by
    have : (16 : Nat) = 2 ^ 4 := by norm_num
    rw [this]
    exact Nat.Coprime.pow_right 4 hcop2
  have hcopm : Nat.Coprime baseOrder m := Nat.Coprime.coprime_dvd_right hm hcop16
  have hdn : baseOrder ∣ n := hcopm.dvd_of_dvd_mul_left hd
  have hcop8 : Nat.Coprime baseOrder 8 := by
    have : (8 : Nat) = 2 ^ 3 := by norm_num
    rw [this]
    exact Nat.Coprime.pow_right 3 hcop2
  have h8 : 8 ∣ n := Nat.dvd_of_mod_eq_zero h3
  have hprod : baseOrder * 8 ∣ n := hcop8.mul_dvd_of_dvd_of_dvd hdn h8
  have hpos : 0 < n := by
    have : 0 < 2 ^ 254 := by positivity
    omega
  have hle := Nat.le_of_dvd hpos hprod
  norm_num [baseOrder] at hle
  omega

theorem clamped_nsmul_ne_zero {n : Nat} (hn : Clamped n) (m : Nat) (hm : m ∣ 16) :
    m • (n • Point.some base_nonsingular) ≠ 0 := by
  intro h
  rw [← mul_nsmul', nsmul_base_eq_zero_iff] at h
  exact clamped_not_dvd hn m hm h

/-! ## Public keys of clamped scalars are not of low order -/

theorem mem_lowOrderPoints {v : Nat} (h : lowOrderPoints.contains v = true) :
    v = 0 ∨ v = 1 ∨
      v = 325606250916557431795983626356110631294008115727848805560023387167927233504 ∨
      v = 39382357235489614581723060781553021112529911719440698176882885853963445705823 ∨
      v = 57896044618658097711785492504343953926634992332820282019728792003956564819948 := by
  simpa [lowOrderPoints] using h

set_option maxRecDepth 100000 in
theorem ladderS_eight_lowOrder :
    (ladderXZS 8 1).2 = 0 ∧
    (ladderXZS 8
      325606250916557431795983626356110631294008115727848805560023387167927233504).2 = 0 ∧
    (ladderXZS 8
      39382357235489614581723060781553021112529911719440698176882885853963445705823).2 = 0 ∧
    (ladderXZS 8
      57896044618658097711785492504343953926634992332820282019728792003956564819948).2 = 0 := by
  decide

theorem ladder_eight_lowOrder :
    (ladderXZ 8 1).2 = 0 ∧
    (ladderXZ 8
      325606250916557431795983626356110631294008115727848805560023387167927233504).2 = 0 ∧
    (ladderXZ 8
      39382357235489614581723060781553021112529911719440698176882885853963445705823).2 = 0 ∧
    (ladderXZ 8
      57896044618658097711785492504343953926634992332820282019728792003956564819948).2 = 0 := by
  simp only [← ladderXZS_eq]
  exact ladderS_eight_lowOrder

/-- An affine point whose x-coordinate is one of the low-order values has
order dividing 8. -/
theorem lowOrder_nsmul {x y : ZMod P} (hQ : Curve25519.Nonsingular x y) (v : Nat)
    (hv : (v : ZMod P) = x) (hmem : lowOrderPoints.contains v = true) :
    (2 : Nat) • Point.some hQ = 0 ∨ (8 : Nat) • Point.some hQ = 0 := by
  have h8 : (8 : Nat) < 2 ^ 255 := by norm_num
  obtain ⟨l1, l2, l3, l4⟩ := ladder_eight_lowOrder
  have hne : ∀ c : Nat, 0 < c → c < P → v = c → x ≠ 0 := by
    intro c h0 hlt hvc
    rw [← hv, hvc]
    exact natCast_ne_zero_of_lt c h0 hlt
  rcases mem_lowOrderPoints hmem with h | h | h | h | h
  · left
    have hx : x = 0 := by rw [← hv, h]; simp
    have he := (curve_equation_iff curveA x y).1 hQ.1
    rw [hx] at he
    have hy : y = 0 := by
      have : y ^ 2 = 0 := by rw [he]; ring
      exact pow_eq_zero_iff (by norm_num) |>.1 this
    rw [two_nsmul]
    exact Point.add_self_of_Y_eq (by rw [curve_negY, hy, neg_zero])
  · right
    have hx := hne _ (by norm_num) (by norm_num [P]) h
    subst h
    exact nsmul_eq_zero_of_ladder hQ hx _ hv 8 h8 l1
  · right
    have hx := hne _ (by norm_num) (by norm_num [P]) h
    subst h
    exact nsmul_eq_zero_of_ladder hQ hx _ hv 8 h8 l2
  · right
    have hx := hne _ (by norm_num) (by norm_num [P]) h
    subst h
    exact nsmul_eq_zero_of_ladder hQ hx _ hv 8 h8 l3
  · right
    have hx := hne _ (by norm_num) (by norm_num [P]) h
    subst h
    exact nsmul_eq_zero_of_ladder hQ hx _ hv 8 h8 l4

/-- The X25519 function of a clamped scalar and the base point is not one of
the low-order values. -/
theorem X25519_base_not_lowOrder {n : Nat} (hn : Clamped n) :
    lowOrderPoints.contains (X25519 n 9 % P) = false := by
  rw [Nat.mod_eq_of_lt (X25519_lt n 9)]
  by_contra hcon
  have hmem : lowOrderPoints.contains (X25519 n 9) = true := by simpa using hcon
  have hcast := X25519_cast base_nonsingular nine_ne_zero_Fp 9 nine_cast n hn.2.1
  have h1 := clamped_nsmul_ne_zero hn 1 (by norm_num)
  have h2 := clamped_nsmul_ne_zero hn 2 (by norm_num)
  have h8 := clamped_nsmul_ne_zero hn 8 (by norm_num)
  generalize n • Point.some base_nonsingular = Q at hcast h1 h2 h8
  rcases Q with _ | ⟨hQ⟩
  · exact h1 (by rw [one_nsmul]; rfl)
  · simp only [xOf] at hcast
    rcases lowOrder_nsmul hQ _ hcast hmem with h | h
    · exact h2 h
    · exact h8 h

/-! ## Scalar multiplication commutes -/

theorem X25519_base_cast_ne_zero {n : Nat} (hn : Clamped n) :
    ((X25519 n 9 : Nat) : ZMod P) ≠ 0 := by
  have h := X25519_base_not_lowOrder hn
  rw [Nat.mod_eq_of_lt (X25519_lt n 9)] at h
  have hne : X25519 n 9 ≠ 0 := by
    intro h0
    rw [h0] at h
    simp [lowOrderPoints] at h
  exact natCast_ne_zero_of_lt _ (Nat.pos_of_ne_zero hne) (X25519_lt n 9)

theorem X25519_base_base_cast {m n : Nat} (hm : Clamped m) (hn : Clamped n) :
    ((X25519 m (X25519 n 9) : Nat) : ZMod P) =
      xOf ((m * n) • Point.some base_nonsingular) := by
  have hcast := X25519_cast base_nonsingular nine_ne_zero_Fp 9 nine_cast n hn.2.1
  have hne := X25519_base_cast_ne_zero hn
  have h1 := clamped_nsmul_ne_zero hn 1 (by norm_num)
  rw [mul_nsmul']
  generalize n • Point.some base_nonsingular = Q at hcast h1
  rcases Q with _ | ⟨hQ⟩
  · exact absurd (by rw [one_nsmul]; rfl) h1
  · simp only [xOf] at hcast
    rw [hcast] at hne
    exact X25519_cast hQ hne _ hcast m hm.2.1

/-- The Diffie-Hellman property of the X25519 function on clamped scalars. -/
theorem X25519_comm {m n : Nat} (hm : Clamped m) (hn : Clamped n) :
    X25519 m (X25519 n 9) = X25519 n (X25519 m 9) := by
  apply natCast_inj_of_lt (X25519_lt _ _) (X25519_lt _ _)
  rw [X25519_base_base_cast hm hn, X25519_base_base_cast hn hm, Nat.mul_comm]

/-! ## Byte strings -/

theorem decodeLE_encodeLE (n v : Nat) : decodeLE (encodeLE n v) = v % 256 ^ n := by
  induction n generalizing v with
  | zero => simp [encodeLE, decodeLE, Nat.mod_one]
  | succ n ih =>
    simp only [encodeLE, decodeLE, ih]
    rw [pow_succ, Nat.mul_comm (256 ^ n) 256, Nat.mod_mul]

theorem decodeLE_toKey (v : Nat) (hv : v < P) : decodeLE (toKey v).1 = v := by
  simp only [toKey, decodeLE_encodeLE]
  apply Nat.mod_eq_of_lt
  have : P < 256 ^ Size := by norm_num [P, Size]
  omega

set_option maxRecDepth 100000 in
theorem byte_and_248 : ∀ b : Byte, (b &&& 248).val % 8 = 0 := by decide

set_option maxRecDepth 100000 in
theorem byte_and_127_or_64 : ∀ b : Byte,
    64 ≤ ((b &&& 127) ||| 64).val ∧ ((b &&& 127) ||| 64).val < 128 := by decide

/-- The scalar of a clamped key is a multiple of 8 in `[2^254, 2^255)`. -/
theorem clamp_clamped (k : Key) : Clamped (decodeLE (clamp k).1) := by
  obtain ⟨l, hl⟩ := k
  rcases l with _ | ⟨b0, l⟩
  · simp [Size] at hl
  rcases l with _ | ⟨b1, l⟩
  · simp [Size] at hl
  rcases l with _ | ⟨b2, l⟩
  · simp [Size] at hl
  rcases l with _ | ⟨b3, l⟩
  · simp [Size] at hl
  rcases l with _ | ⟨b4, l⟩
  · simp [Size] at hl
  rcases l with _ | ⟨b5, l⟩
  · simp [Size] at hl
  rcases l with _ | ⟨b6, l⟩
  · simp [Size] at hl
  rcases l with _ | ⟨b7, l⟩
  · simp [Size] at hl
  rcases l with _ | ⟨b8, l⟩
  · simp [Size] at hl
  rcases l with _ | ⟨b9, l⟩
  · simp [Size] at hl
  rcases l with _ | ⟨b10, l⟩
  · simp [Size] at hl
  rcases l with _ | ⟨b11, l⟩
  · simp [Size] at hl
  rcases l with _ | ⟨b12, l⟩
  · simp [Size] at hl
  rcases l with _ | ⟨b13, l⟩
  · simp [Size] at hl
  rcases l with _ | ⟨b14, l⟩
  · simp [Size] at hl
  rcases l with _ | ⟨b15, l⟩
  · simp [Size] at hl
  rcases l with _ | ⟨b16, l⟩
  · simp [Size] at hl
  rcases l with _ | ⟨b17, l⟩
  · simp [Size] at hl
  rcases l with _ | ⟨b18, l⟩
  · simp [Size] at hl
  rcases l with _ | ⟨b19, l⟩
  · simp [Size] at hl
  rcases l with _ | ⟨b20, l⟩
  · simp [Size] at hl
  rcases l with _ | ⟨b21, l⟩
  · simp [Size] at hl
  rcases l with _ | ⟨b22, l⟩
  · simp [Size] at hl
  rcases l with _ | ⟨b23, l⟩
  · simp [Size] at hl
  rcases l with _ | ⟨b24, l⟩
  · simp [Size] at hl
  rcases l with _ | ⟨b25, l⟩
  · simp [Size] at hl
  rcases l with _ | ⟨b26, l⟩
  · simp [Size] at hl
  rcases l with _ | ⟨b27, l⟩
  · simp [Size] at hl
  rcases l with _ | ⟨b28, l⟩
  · simp [Size] at hl
  rcases l with _ | ⟨b29, l⟩
  · simp [Size] at hl
  rcases l with _ | ⟨b30, l⟩
  · simp [Size] at hl
  rcases l with _ | ⟨b31, l⟩
  · simp [Size] at hl
  rcases l with _ | ⟨c, l⟩
  · simp only [clamp, Key.modifyAt, List.set, List.getD, List.get?, Option.getD, decodeLE,
      Clamped]
    have h0 := byte_and_248 b0
    obtain ⟨h1, h2⟩ := byte_and_127_or_64 b31
    have h0lt := (b0 &&& 248).isLt
    generalize (b0 &&& 248).val = a0 at h0 h0lt
    generalize ((b31 &&& 127) ||| 64).val = a31 at h1 h2
    have hb1 := b1.isLt
    have hb2 := b2.isLt
    have hb3 := b3.isLt
    have hb4 := b4.isLt
    have hb5 := b5.isLt
    have hb6 := b6.isLt
    have hb7 := b7.isLt
    have hb8 := b8.isLt
    have hb9 := b9.isLt
    have hb10 := b10.isLt
    have hb11 := b11.isLt
    have hb12 := b12.isLt
    have hb13 := b13.isLt
    have hb14 := b14.isLt
    have hb15 := b15.isLt
    have hb16 := b16.isLt
    have hb17 := b17.isLt
    have hb18 := b18.isLt
    have hb19 := b19.isLt
    have hb20 := b20.isLt
    have hb21 := b21.isLt
    have hb22 := b22.isLt
    have hb23 := b23.isLt
    have hb24 := b24.isLt
    have hb25 := b25.isLt
    have hb26 := b26.isLt
    have hb27 := b27.isLt
    have hb28 := b28.isLt
    have hb29 := b29.isLt
    have hb30 := b30.isLt
    omega
  · simp [Size] at hl

/-! ## The DH engine on honestly generated keys -/

theorem X25519_mod_two_pow (k : Nat) : X25519 k 9 % 2 ^ 255 = X25519 k 9 := by
  apply Nat.mod_eq_of_lt
  have h := X25519_lt k 9
  have : P < 2 ^ 255 := by norm_num [P]
  omega

/-- The shared-computation step on a generated public key: the flag is true,
and the secret is the X25519 function applied twice. -/
theorem Shared_KeyGen (e s : Key) :
    Shared e (KeyGen s) =
      (toKey (X25519 (decodeLE (clamp e).1) (X25519 (decodeLE (clamp s).1) 9)), true) := by
  have hlow := X25519_base_not_lowOrder (clamp_clamped s)
  simp only [Shared, KeyGen, decodeLE_toKey _ (X25519_lt _ 9), X25519_mod_two_pow, hlow,
    Bool.not_false]

/-- The Diffie-Hellman property of the engine. -/
theorem Shared_comm (e s : Key) : Shared e (KeyGen s) = Shared s (KeyGen e) := by
  rw [Shared_KeyGen, Shared_KeyGen, X25519_comm (clamp_clamped e) (clamp_clamped s)]

theorem Shared_KeyGen_valid (e s : Key) : (Shared e (KeyGen s)).2 = true := by
  rw [Shared_KeyGen]

theorem decodeLE_zero : decodeLE Key.zero.1 = 0 := by decide

/-- The engine reports the all-zero public key as invalid, for every secret. -/
theorem Shared_zero_invalid (e : Key) : (Shared e Key.zero).2 = false := by
  simp [Shared, decodeLE_zero, lowOrderPoints]

theorem x25519_Shared_comm (e s : Key) :
    x25519.Shared e (x25519.KeyGen s) = x25519.Shared s (x25519.KeyGen e) :=
  Shared_comm e s

theorem x25519_Shared_KeyGen_valid (e s : Key) :
    (x25519.Shared e (x25519.KeyGen s)).2 = true :=
  Shared_KeyGen_valid e s

theorem x25519_Shared_zero_invalid (e : Key) : (x25519.Shared e Key.zero).2 = false :=
  Shared_zero_invalid e

/-! ## The engine on the test vectors of RFC 7748

The model of the DH engine reproduces the published X25519 vectors (RFC 7748,
section 6.1): the two public keys and the shared secret. -/

theorem X25519_eq_strict (k u : Nat) :
    X25519 k u = fmul (ladderXZS k (u % P)).1 (finv (ladderXZS k (u % P)).2) := by
  simp only [X25519, ladderXZS_eq]

set_option maxRecDepth 100000 in
theorem KeyGen_vector_alice :
    (KeyGen ⟨[119, 7, 109, 10, 115, 24, 165, 125, 60, 22, 193, 114, 81, 178, 102, 69, 223, 76, 47, 135,
      235, 192, 153, 42, 177, 119, 251, 165, 29, 185, 44, 42], rfl⟩).1 =
      [133, 32, 240, 9, 137, 48, 167, 84, 116, 139, 125, 220, 180, 62, 247, 90, 13, 191, 58, 13,
      38, 56, 26, 244, 235, 164, 169, 142, 170, 155, 78, 106] := by
  rw [KeyGen, X25519_eq_strict]
  decide

set_option maxRecDepth 100000 in
theorem KeyGen_vector_bob :
    (KeyGen ⟨[93, 171, 8, 126, 98, 74, 138, 75, 121, 225, 127, 139, 131, 128, 14, 230, 111, 59, 177,
      41, 38, 24, 182, 253, 28, 47, 139, 39, 255, 136, 224, 235], rfl⟩).1 =
      [222, 158, 219, 125, 123, 125, 193, 180, 211, 91, 97, 194, 236, 228, 53, 55, 63, 131, 67,
      200, 91, 120, 103, 77, 173, 252, 126, 20, 111, 136, 43, 79] := by
  rw [KeyGen, X25519_eq_strict]
  decide

set_option maxRecDepth 100000 in
theorem Shared_vector :
    ((Shared ⟨[119, 7, 109, 10, 115, 24, 165, 125, 60, 22, 193, 114, 81, 178, 102, 69, 223, 76, 47, 135,
      235, 192, 153, 42, 177, 119, 251, 165, 29, 185, 44, 42], rfl⟩
        ⟨[222, 158, 219, 125, 123, 125, 193, 180, 211, 91, 97, 194, 236, 228, 53, 55, 63, 131, 67,
      200, 91, 120, 103, 77, 173, 252, 126, 20, 111, 136, 43, 79], rfl⟩).1.1,
      (Shared ⟨[119, 7, 109, 10, 115, 24, 165, 125, 60, 22, 193, 114, 81, 178, 102, 69, 223, 76, 47, 135,
      235, 192, 153, 42, 177, 119, 251, 165, 29, 185, 44, 42], rfl⟩
        ⟨[222, 158, 219, 125, 123, 125, 193, 180, 211, 91, 97, 194, 236, 228, 53, 55, 63, 131, 67,
      200, 91, 120, 103, 77, 173, 252, 126, 20, 111, 136, 43, 79], rfl⟩).2) =
      ([74, 93, 157, 91, 164, 206, 45, 225, 114, 142, 59, 244, 128, 53, 15, 37, 224, 126, 33,
      201, 71, 209, 158, 51, 118, 240, 155, 60, 30, 22, 23, 66], true) := by
  rw [Shared, X25519_eq_strict]
  decide

/-! ## The claims of the specification -/

/-- C1. KEM correctness: for every 32-byte seed `s` with
`(pk, sk) = DeriveKey(s)` and every 32-byte seed `e`, if
`EncapsulateDeterministically(pk, e)` returns without error, it returns a
ciphertext `ct` and a 32-byte shared secret `ss`, and `Decapsulate(sk, ct)`
returns without error exactly `ss`. -/
theorem kem_correctness (s e : List Byte) (hs : s.length = Size) (he : e.length = Size)
    (pk : KemPublicKey) (sk : KemPrivateKey)
    (hkey : DeriveKey x25519 s = .returned (pk, sk))
    (henc : (EncapsulateDeterministically x25519 pk e).2.2 = none) :
    ∃ ct ss, EncapsulateDeterministically x25519 pk e = (some ct, some ss, none) ∧
      ss.length = SharedKeySize ∧ Decapsulate x25519 sk ct = (some ss, none) := by
  rw [DeriveKey_of_length x25519 s hs] at hkey
  injection hkey with hkey
  injection hkey with hpk hsk
  subst hpk
  subst hsk
  have hvalid : (x25519.Shared ⟨e, he⟩ (x25519.KeyGen ⟨s, hs⟩)).2 = true :=
    x25519_Shared_KeyGen_valid _ _
  refine ⟨(x25519.KeyGen ⟨e, he⟩).slice,
    (x25519.Shared ⟨e, he⟩ (x25519.KeyGen ⟨s, hs⟩)).1.slice, ?_, ?_, ?_⟩
  · rw [EncapsulateDeterministically_of_length x25519 _ e he]
    simp [hvalid]
  · exact (x25519.Shared ⟨e, he⟩ (x25519.KeyGen ⟨s, hs⟩)).1.2
  · have hlen : (x25519.KeyGen ⟨e, he⟩).slice.length = Size := (x25519.KeyGen ⟨e, he⟩).2
    rw [Decapsulate_of_length x25519 _ _ hlen]
    have hcomm : x25519.Shared ⟨s, hs⟩ (x25519.KeyGen ⟨e, he⟩)
        = x25519.Shared ⟨e, he⟩ (x25519.KeyGen ⟨s, hs⟩) := x25519_Shared_comm _ _
    have hmk : (⟨(x25519.KeyGen ⟨e, he⟩).slice, hlen⟩ : Key) = x25519.KeyGen ⟨e, he⟩ := rfl
    simp only [hmk, hcomm, hvalid]
    simp

/-- Witness of C1: the key pair of the all-zero seed and the encapsulation
seed of 32 bytes `1`. -/
theorem kem_correctness_witness :
    ∃ ct ss,
      EncapsulateDeterministically x25519
          (.x25519 ⟨x25519.KeyGen ⟨List.replicate 32 0, rfl⟩⟩) (List.replicate 32 1)
        = (some ct, some ss, none) ∧
      ss.length = SharedKeySize ∧
      Decapsulate x25519 (.x25519 ⟨⟨List.replicate 32 0, rfl⟩⟩) ct = (some ss, none) :=
  kem_correctness (List.replicate 32 0) (List.replicate 32 1) rfl rfl _ _
    (DeriveKey_of_length x25519 (List.replicate 32 0) rfl)
    (by
      have h : (x25519.Shared ⟨List.replicate 32 1, rfl⟩
          (x25519.KeyGen ⟨List.replicate 32 0, rfl⟩)).2 = true := x25519_Shared_KeyGen_valid _ _
      rw [EncapsulateDeterministically_of_length x25519 _ (List.replicate 32 1) rfl,
        if_neg (by rw [h]; decide)])

/-- C2. Serialization round trip: for every public key `k`,
`UnmarshalBinaryPublicKey(k.MarshalBinary())` succeeds and returns a key equal
to `k`, byte for byte and by `Equal`; likewise for every private key. -/
theorem marshal_unmarshal_roundtrip (pk : PublicKey) (sk : PrivateKey) :
    (pk.MarshalBinary.2 = none ∧
      UnmarshalBinaryPublicKey pk.MarshalBinary.1 = (some (.x25519 pk), none) ∧
      pk.Equal (.x25519 pk) = true) ∧
    (sk.MarshalBinary.2 = none ∧
      UnmarshalBinaryPrivateKey sk.MarshalBinary.1 = (some (.x25519 sk), none) ∧
      sk.Equal (.x25519 sk) = true) := by
  refine ⟨⟨?_, ?_, PublicKey_Equal_self pk⟩, ⟨?_, ?_, PrivateKey_Equal_self sk⟩⟩
  · rw [PublicKey_MarshalBinary_eq]
  · rw [PublicKey_MarshalBinary_eq]
    have h : pk.key.slice.length = Size := pk.key.2
    simp only [UnmarshalBinaryPublicKey, h, ne_eq, not_true_eq_false, if_false,
      Key_zero_copyFrom_slice]
  · rw [PrivateKey_MarshalBinary_eq]
  · rw [PrivateKey_MarshalBinary_eq]
    have h : sk.key.slice.length = Size := sk.key.2
    simp only [UnmarshalBinaryPrivateKey, h, ne_eq, not_true_eq_false, if_false,
      Key_zero_copyFrom_slice]

/-- C3. For every byte sequence `buf`, `UnmarshalBinaryPublicKey(buf)` fails if
and only if `len(buf) != 32`, the failure is `ErrPubKeySize` and no key is
returned with it; otherwise a key is returned. The same holds of
`UnmarshalBinaryPrivateKey` with `ErrPrivKeySize`. -/
theorem unmarshal_fails_iff_wrong_size (buf : List Byte) :
    (((UnmarshalBinaryPublicKey buf).2 ≠ none ↔ buf.length ≠ 32) ∧
      ((UnmarshalBinaryPublicKey buf).2 ≠ none ↔
        UnmarshalBinaryPublicKey buf = (none, some .ErrPubKeySize)) ∧
      ((UnmarshalBinaryPublicKey buf).2 = none ↔
        ∃ k, UnmarshalBinaryPublicKey buf = (some k, none))) ∧
    (((UnmarshalBinaryPrivateKey buf).2 ≠ none ↔ buf.length ≠ 32) ∧
      ((UnmarshalBinaryPrivateKey buf).2 ≠ none ↔
        UnmarshalBinaryPrivateKey buf = (none, some .ErrPrivKeySize)) ∧
      ((UnmarshalBinaryPrivateKey buf).2 = none ↔
        ∃ k, UnmarshalBinaryPrivateKey buf = (some k, none))) := by
  by_cases h : buf.length = 32
  · simp [UnmarshalBinaryPublicKey, UnmarshalBinaryPrivateKey, Size, h]
  · simp [UnmarshalBinaryPublicKey, UnmarshalBinaryPrivateKey, Size, h]

/-- C4. For every seed whose length is not 32 and every public key argument,
of this scheme or foreign, `EncapsulateDeterministically` returns
`ErrSeedSize` with no ciphertext and no shared secret (it returns: the
function is total); the seed-length check comes before the variant check. -/
theorem encapsulate_wrong_seed_size (dh : DHEngine) (pk : KemPublicKey) (seed : List Byte)
    (h : seed.length ≠ 32) :
    EncapsulateDeterministically dh pk seed = (none, none, some .ErrSeedSize) := by
  simp [EncapsulateDeterministically, Size, h]

/-- Witness of C4: a foreign public key and a seed of 31 bytes. -/
theorem encapsulate_wrong_seed_size_witness :
    EncapsulateDeterministically x25519 (.foreign "other" []) (List.replicate 31 0)
      = (none, none, some .ErrSeedSize) :=
  encapsulate_wrong_seed_size x25519 (.foreign "other" []) (List.replicate 31 0) (by decide)

/-- C5. For every ciphertext whose length is not 32 and every private key
argument, of this scheme or foreign, `Decapsulate` returns `ErrCiphertextSize`
and no shared secret; the length check comes before the variant check. -/
theorem decapsulate_wrong_ciphertext_size (dh : DHEngine) (sk : KemPrivateKey)
    (ct : List Byte) (h : ct.length ≠ 32) :
    Decapsulate dh sk ct = (none, some .ErrCiphertextSize) := by
  simp [Decapsulate, Size, h]

/-- Witness of C5: a foreign private key and a ciphertext of 31 bytes. -/
theorem decapsulate_wrong_ciphertext_size_witness :
    Decapsulate x25519 (.foreign "other" []) (List.replicate 31 0)
      = (none, some .ErrCiphertextSize) :=
  decapsulate_wrong_ciphertext_size x25519 (.foreign "other" []) (List.replicate 31 0)
    (by decide)

/-- C6. Type-confusion defence: for every public key of another scheme and
every 32-byte seed, `EncapsulateDeterministically` returns `ErrTypeMismatch`
with no ciphertext or secret; for every private key of another scheme and every
32-byte ciphertext, `Decapsulate` returns `ErrTypeMismatch` with no secret.
The results do not depend on the DH engine. -/
theorem foreign_key_type_mismatch (dh : DHEngine) (scheme : String) (raw seed ct : List Byte)
    (hs : seed.length = 32) (hc : ct.length = 32) :
    EncapsulateDeterministically dh (.foreign scheme raw) seed
        = (none, none, some .ErrTypeMismatch) ∧
      Decapsulate dh (.foreign scheme raw) ct = (none, some .ErrTypeMismatch) ∧
      (∀ dh2 : DHEngine,
        EncapsulateDeterministically dh2 (.foreign scheme raw) seed
            = EncapsulateDeterministically dh (.foreign scheme raw) seed ∧
          Decapsulate dh2 (.foreign scheme raw) ct = Decapsulate dh (.foreign scheme raw) ct) := by
  simp [EncapsulateDeterministically, Decapsulate, Size, hs, hc]

/-- Witness of C6: a foreign key with the all-zero seed and ciphertext. -/
theorem foreign_key_type_mismatch_witness :
    EncapsulateDeterministically x25519 (.foreign "other" []) (List.replicate 32 0)
        = (none, none, some .ErrTypeMismatch) ∧
      Decapsulate x25519 (.foreign "other" []) (List.replicate 32 0)
        = (none, some .ErrTypeMismatch) ∧
      (∀ dh2 : DHEngine,
        EncapsulateDeterministically dh2 (.foreign "other" []) (List.replicate 32 0)
            = EncapsulateDeterministically x25519 (.foreign "other" []) (List.replicate 32 0) ∧
          Decapsulate dh2 (.foreign "other" []) (List.replicate 32 0)
            = Decapsulate x25519 (.foreign "other" []) (List.replicate 32 0)) :=
  foreign_key_type_mismatch x25519 "other" [] (List.replicate 32 0) (List.replicate 32 0)
    (by decide) (by decide)

/-- C7. For every public key `pk` of this scheme and every 32-byte seed `e` for
which `EncapsulateDeterministically(pk, e)` succeeds with `(ct, ss)`: `ct` is
the marshalled public key of `DeriveKey(e)`, so it is the same for every
public key, and `ss` is the result of the shared computation of the DH engine
on the scalar `e` and the point `pk`. -/
theorem encapsulate_outputs (dh : DHEngine) (pk : PublicKey) (e : List Byte)
    (he : e.length = 32) (ct ss : List Byte)
    (h : EncapsulateDeterministically dh (.x25519 pk) e = (some ct, some ss, none)) :
    (∃ epk esk, DeriveKey dh e = .returned (.x25519 epk, esk) ∧
        epk.MarshalBinary = (ct, none)) ∧
      ss = (dh.Shared ⟨e, he⟩ pk.key).1.slice ∧
      (∀ (pk2 : PublicKey) (ct2 ss2 : List Byte),
        EncapsulateDeterministically dh (.x25519 pk2) e = (some ct2, some ss2, none) →
          ct2 = ct) := by
  have hout : ∀ (q : PublicKey) (c k : List Byte),
      EncapsulateDeterministically dh (.x25519 q) e = (some c, some k, none) →
        c = (dh.KeyGen ⟨e, he⟩).slice ∧ k = (dh.Shared ⟨e, he⟩ q.key).1.slice := by
    intro q c k hq
    rw [EncapsulateDeterministically_of_length dh q e he] at hq
    by_cases hv : (dh.Shared ⟨e, he⟩ q.key).2 = false
    · rw [if_pos hv] at hq
      simp at hq
    · rw [if_neg hv] at hq
      simp only [Prod.mk.injEq, Option.some.injEq, and_true] at hq
      exact ⟨hq.1.symm, hq.2.symm⟩
  obtain ⟨hct, hss⟩ := hout pk ct ss h
  refine ⟨⟨⟨dh.KeyGen ⟨e, he⟩⟩, .x25519 ⟨⟨e, he⟩⟩, DeriveKey_of_length dh e he, ?_⟩, hss, ?_⟩
  · rw [PublicKey_MarshalBinary_eq, hct]
  · intro pk2 ct2 ss2 h2
    rw [(hout pk2 ct2 ss2 h2).1, hct]

/-- Witness of C7: the public key of the all-zero seed and the encapsulation
seed of 32 bytes `1`. -/
theorem encapsulate_outputs_witness :
    (∃ epk esk, DeriveKey x25519 (List.replicate 32 1) = .returned (.x25519 epk, esk) ∧
        epk.MarshalBinary = ((x25519.KeyGen ⟨List.replicate 32 1, rfl⟩).slice, none)) ∧
      (x25519.Shared ⟨List.replicate 32 1, rfl⟩
          (x25519.KeyGen ⟨List.replicate 32 0, rfl⟩)).1.slice
        = (x25519.Shared ⟨List.replicate 32 1, rfl⟩
          (PublicKey.mk (x25519.KeyGen ⟨List.replicate 32 0, rfl⟩)).key).1.slice ∧
      (∀ (pk2 : PublicKey) (ct2 ss2 : List Byte),
        EncapsulateDeterministically x25519 (.x25519 pk2) (List.replicate 32 1)
            = (some ct2, some ss2, none) →
          ct2 = (x25519.KeyGen ⟨List.replicate 32 1, rfl⟩).slice) :=
  encapsulate_outputs x25519 ⟨x25519.KeyGen ⟨List.replicate 32 0, rfl⟩⟩ (List.replicate 32 1)
    rfl _ _
    (by
      have h : (x25519.Shared ⟨List.replicate 32 1, rfl⟩
          (x25519.KeyGen ⟨List.replicate 32 0, rfl⟩)).2 = true := x25519_Shared_KeyGen_valid _ _
      rw [EncapsulateDeterministically_of_length x25519 _ (List.replicate 32 1) rfl,
        if_neg (by rw [h]; decide)])

/-- C8. For every 32-byte seed `s`, `DeriveKey(s)` returns a pair `(pk, sk)` of
keys of this scheme: `sk.MarshalBinary()` is `s` byte for byte (the raw seed,
not clamped), `pk` is the key-generation output of the DH engine for the
scalar `s`, and the keys of two calls with the same seed are `Equal`. -/
theorem deriveKey_of_seed (dh : DHEngine) (s : List Byte) (hs : s.length = 32) :
    ∃ pk sk, DeriveKey dh s = .returned (.x25519 pk, .x25519 sk) ∧
      sk.MarshalBinary = (s, none) ∧
      pk.key = dh.KeyGen ⟨s, hs⟩ ∧
      (∀ pk2 sk2, DeriveKey dh s = .returned (.x25519 pk2, .x25519 sk2) →
        pk.Equal (.x25519 pk2) = true ∧ sk.Equal (.x25519 sk2) = true) := by
  refine ⟨⟨dh.KeyGen ⟨s, hs⟩⟩, ⟨⟨s, hs⟩⟩, DeriveKey_of_length dh s hs, ?_, rfl, ?_⟩
  · rw [PrivateKey_MarshalBinary_eq]
    rfl
  · intro pk2 sk2 h2
    rw [DeriveKey_of_length dh s hs] at h2
    injection h2 with h2
    injection h2 with hpk hsk
    injection hpk with hpk
    injection hsk with hsk
    subst hpk
    subst hsk
    exact ⟨PublicKey_Equal_self _, PrivateKey_Equal_self _⟩

/-- Witness of C8: the all-zero seed. -/
theorem deriveKey_of_seed_witness :
    ∃ pk sk, DeriveKey x25519 (List.replicate 32 0) = .returned (.x25519 pk, .x25519 sk) ∧
      sk.MarshalBinary = (List.replicate 32 0, none) ∧
      pk.key = x25519.KeyGen ⟨List.replicate 32 0, rfl⟩ ∧
      (∀ pk2 sk2,
        DeriveKey x25519 (List.replicate 32 0) = .returned (.x25519 pk2, .x25519 sk2) →
          pk.Equal (.x25519 pk2) = true ∧ sk.Equal (.x25519 sk2) = true) :=
  deriveKey_of_seed x25519 (List.replicate 32 0) rfl

/-- C9. `DeriveKey(seed)` panics, with `ErrSeedSize`, if and only if
`len(seed) != 32`; it returns a key pair if and only if the length is 32. -/
theorem deriveKey_panics_iff (dh : DHEngine) (seed : List Byte) :
    (DeriveKey dh seed = .panicked .ErrSeedSize ↔ seed.length ≠ 32) ∧
      ((∃ err, DeriveKey dh seed = .panicked err) ↔ seed.length ≠ 32) ∧
      ((∃ pk sk, DeriveKey dh seed = .returned (pk, sk)) ↔ seed.length = 32) := by
  by_cases h : seed.length = 32
  · have hd := DeriveKey_of_length dh seed h
    simp [hd, h]
  · simp [DeriveKey, Size, h]

/-- C10. Degenerate public keys are rejected: for a public key `pk` of this
scheme and a 32-byte seed `e`, `EncapsulateDeterministically(pk, e)` returns
`ErrPubKey`, with neither ciphertext nor shared secret, exactly when the shared
computation of the DH engine reports invalidity for `(e, pk)`; and for the
all-zero public key the X25519 engine makes it return `ErrPubKey` for every
32-byte seed. -/
theorem encapsulate_invalid_public_key (dh : DHEngine) (pk : PublicKey) (e : List Byte)
    (he : e.length = 32) :
    (EncapsulateDeterministically dh (.x25519 pk) e = (none, none, some .ErrPubKey) ↔
        (dh.Shared ⟨e, he⟩ pk.key).2 = false) ∧
      ((EncapsulateDeterministically dh (.x25519 pk) e).2.2 = some .ErrPubKey ↔
        (dh.Shared ⟨e, he⟩ pk.key).2 = false) ∧
      EncapsulateDeterministically x25519 (.x25519 ⟨Key.zero⟩) e
        = (none, none, some .ErrPubKey) := by
  refine ⟨?_, ?_, ?_⟩
  · rw [EncapsulateDeterministically_of_length dh pk e he]
    by_cases hv : (dh.Shared ⟨e, he⟩ pk.key).2 = false
    · simp [hv]
    · simp [hv]
  · rw [EncapsulateDeterministically_of_length dh pk e he]
    by_cases hv : (dh.Shared ⟨e, he⟩ pk.key).2 = false
    · simp [hv]
    · simp [hv]
  · rw [EncapsulateDeterministically_of_length x25519 _ e he]
    have hz : (x25519.Shared ⟨e, he⟩ Key.zero).2 = false := x25519_Shared_zero_invalid _
    simp [hz]

/-- Witness of C10: the all-zero public key and the all-zero seed. -/
theorem encapsulate_invalid_public_key_witness :
    (EncapsulateDeterministically x25519 (.x25519 ⟨Key.zero⟩) (List.replicate 32 0)
          = (none, none, some .ErrPubKey) ↔
        (x25519.Shared ⟨List.replicate 32 0, rfl⟩ (PublicKey.mk Key.zero).key).2 = false) ∧
      ((EncapsulateDeterministically x25519 (.x25519 ⟨Key.zero⟩) (List.replicate 32 0)).2.2
          = some .ErrPubKey ↔
        (x25519.Shared ⟨List.replicate 32 0, rfl⟩ (PublicKey.mk Key.zero).key).2 = false) ∧
      EncapsulateDeterministically x25519 (.x25519 ⟨Key.zero⟩) (List.replicate 32 0)
        = (none, none, some .ErrPubKey) :=
  encapsulate_invalid_public_key x25519 ⟨Key.zero⟩ (List.replicate 32 0) rfl

/-! ## The comparison of keys -/

theorem byte_xor_eq_zero (a b : Byte) : a ^^^ b = 0 ↔ a = b := by
  constructor
  · intro h
    have h1 : (a.val ^^^ b.val) % 256 = 0 := congrArg Fin.val h
    have hlt : a.val ^^^ b.val < 256 := Nat.xor_lt_two_pow (n := 8) a.isLt b.isLt
    rw [Nat.mod_eq_of_lt hlt] at h1
    exact Fin.ext (Nat.xor_eq_zero.1 h1)
  · intro h
    rw [h]
    exact byte_xor_self b

theorem nat_or_eq_zero (a b : Nat) : a ||| b = 0 ↔ a = 0 ∧ b = 0 := by
  constructor
  · intro h
    constructor
    · apply Nat.eq_of_testBit_eq
      intro i
      have := congrArg (fun n => Nat.testBit n i) h
      simp only [Nat.testBit_or, Nat.zero_testBit, Bool.or_eq_false_iff] at this
      simpa using this.1
    · apply Nat.eq_of_testBit_eq
      intro i
      have := congrArg (fun n => Nat.testBit n i) h
      simp only [Nat.testBit_or, Nat.zero_testBit, Bool.or_eq_false_iff] at this
      simpa using this.2
  · rintro ⟨rfl, rfl⟩
    rfl

theorem byte_or_eq_zero (a b : Byte) : a ||| b = 0 ↔ a = 0 ∧ b = 0 := by
  constructor
  · intro h
    have h1 : (a.val ||| b.val) % 256 = 0 := congrArg Fin.val h
    have hlt : a.val ||| b.val < 256 := Nat.or_lt_two_pow (n := 8) a.isLt b.isLt
    rw [Nat.mod_eq_of_lt hlt] at h1
    obtain ⟨ha, hb⟩ := (nat_or_eq_zero _ _).1 h1
    exact ⟨Fin.ext ha, Fin.ext hb⟩
  · rintro ⟨rfl, rfl⟩
    rfl

theorem ConstantTimeByteEq_zero (v : Byte) : ConstantTimeByteEq v 0 = 1 ↔ v = 0 := by
  have hx : (v ^^^ 0).val = v.val := by
    show (v.val ^^^ 0) % 256 = v.val
    simp [Nat.mod_eq_of_lt v.isLt]
  simp only [ConstantTimeByteEq, hx]
  have hv := v.isLt
  constructor
  · intro h
    apply Fin.ext
    show v.val = 0
    omega
  · intro h
    rw [h]
    rfl

theorem ctAccumulate_eq_zero : ∀ (x y : List Byte) (v : Byte), x.length = y.length →
    (ctAccumulate v x y = 0 ↔ v = 0 ∧ x = y) := by
  intro x
  induction x with
  | nil =>
    intro y v h
    cases y with
    | nil => simp [ctAccumulate]
    | cons b y => simp at h
  | cons a x ih =>
    intro y v h
    cases y with
    | nil => simp at h
    | cons b y =>
      have hl : x.length = y.length := by simpa using h
      simp only [ctAccumulate, ih y _ hl, byte_or_eq_zero, byte_xor_eq_zero, List.cons.injEq]
      tauto

theorem ConstantTimeCompare_eq_one (x y : List Byte) (h : x.length = y.length) :
    ConstantTimeCompare x y = 1 ↔ x = y := by
  simp only [ConstantTimeCompare, h, ne_eq, not_true_eq_false, if_false,
    ConstantTimeByteEq_zero, ctAccumulate_eq_zero x y 0 h, true_and]

theorem PrivateKey_Equal_iff (a b : PrivateKey) :
    a.Equal (.x25519 b) = true ↔ a.key.1 = b.key.1 := by
  have hl : a.key.slice.length = b.key.slice.length := a.key.2.trans b.key.2.symm
  simp only [PrivateKey.Equal, beq_iff_eq, ConstantTimeCompare_eq_one _ _ hl]
  rfl

theorem PublicKey_Equal_iff (a b : PublicKey) :
    a.Equal (.x25519 b) = true ↔ a.key.1 = b.key.1 := by
  simp only [PublicKey.Equal, bytesEqual, decide_eq_true_eq]
  rfl

/-! ## Which secrets share a public key -/

theorem decodeLE_inj : ∀ (x y : List Byte), x.length = y.length →
    decodeLE x = decodeLE y → x = y := by
  intro x
  induction x with
  | nil =>
    intro y hl _
    cases y with
    | nil => rfl
    | cons b y => simp at hl
  | cons a x ih =>
    intro y hl h
    cases y with
    | nil => simp at hl
    | cons b y =>
      simp only [decodeLE] at h
      have ha := a.isLt
      have hb := b.isLt
      have h1 : a.val = b.val := by omega
      have h2 : decodeLE x = decodeLE y := by omega
      rw [Fin.ext h1, ih y (by simpa using hl) h2]

theorem toKey_inj {v w : Nat} (hv : v < P) (hw : w < P) (h : toKey v = toKey w) : v = w := by
  rw [← decodeLE_toKey v hv, ← decodeLE_toKey w hw, h]

theorem xOf_neg (Q : Curve25519.Point) : xOf (-Q) = xOf Q := by
  rcases Q with _ | ⟨hQ⟩
  · rfl
  · rfl

theorem clamped_sub_eq_zero {d : Nat} (hd : d < 2 ^ 254) (h8 : 8 ∣ d) (hl : baseOrder ∣ d) :
    d = 0 := by
  have hodd : ¬ baseOrder ∣ 2 := by
    intro h
    have := Nat.le_of_dvd (by norm_num) h
    norm_num [baseOrder] at this
  have hcop2 : Nat.Coprime baseOrder 2 :=
    (Nat.Prime.coprime_iff_not_dvd baseOrder_prime).2 hodd
  have hcop8 : Nat.Coprime baseOrder 8 := by
    have : (8 : Nat) = 2 ^ 3 := by norm_num
    rw [this]
    exact Nat.Coprime.pow_right 3 hcop2
  have hprod : baseOrder * 8 ∣ d := hcop8.mul_dvd_of_dvd_of_dvd hl h8
  by_contra hne
  have hle := Nat.le_of_dvd (Nat.pos_of_ne_zero hne) hprod
  norm_num [baseOrder] at hle
  omega

theorem clamped_add_eq {n : Nat} (h1 : 2 ^ 255 ≤ n) (h2 : n < 2 ^ 256) (h8 : 8 ∣ n)
    (hl : baseOrder ∣ n) : n = 8 * baseOrder := by
  have hodd : ¬ baseOrder ∣ 2 := by
    intro h
    have := Nat.le_of_dvd (by norm_num) h
    norm_num [baseOrder] at this
  have hcop2 : Nat.Coprime baseOrder 2 :=
    (Nat.Prime.coprime_iff_not_dvd baseOrder_prime).2 hodd
  have hcop8 : Nat.Coprime baseOrder 8 := by
    have : (8 : Nat) = 2 ^ 3 := by norm_num
    rw [this]
    exact Nat.Coprime.pow_right 3 hcop2
  obtain ⟨k, hk⟩ : baseOrder * 8 ∣ n := hcop8.mul_dvd_of_dvd_of_dvd hl h8
  have hk1 : k = 1 := by
    rw [hk] at h1 h2
    norm_num [baseOrder] at h1 h2
    omega
  rw [hk, hk1]
  ring

/-- Two clamped scalars give the same multiple of the base point only when
they are equal. -/
theorem clamped_nsmul_inj {m n : Nat} (hm : Clamped m) (hn : Clamped n)
    (h : m • Point.some base_nonsingular = n • Point.some base_nonsingular) : m = n := by
  have key : ∀ {a b : Nat}, Clamped a → Clamped b → a ≤ b →
      a • Point.some base_nonsingular = b • Point.some base_nonsingular → a = b := by
    intro a b ha hb hab hq
    obtain ⟨d, rfl⟩ : ∃ d, b = a + d := ⟨b - a, by omega⟩
    rw [add_nsmul] at hq
    have hd0 : d • Point.some base_nonsingular = 0 := by
      have := hq.symm
      rwa [add_right_eq_self] at this
    have hdvd := (nsmul_base_eq_zero_iff d).1 hd0
    obtain ⟨a1, a2, a3⟩ := ha
    obtain ⟨b1, b2, b3⟩ := hb
    have h8 : 8 ∣ d := by omega
    have := clamped_sub_eq_zero (by omega) h8 hdvd
    omega
  rcases Nat.le_total m n with hle | hle
  · exact key hm hn hle h
  · exact (key hn hm hle h.symm).symm

/-- Two clamped scalars give opposite multiples of the base point only when
they add up to 8 times its order. -/
theorem clamped_nsmul_neg {m n : Nat} (hm : Clamped m) (hn : Clamped n)
    (h : m • Point.some base_nonsingular = -(n • Point.some base_nonsingular)) :
    m + n = 8 * baseOrder := by
  have h0 : (m + n) • Point.some base_nonsingular = 0 := by
    rw [add_nsmul, h, neg_add_cancel]
  have hdvd := (nsmul_base_eq_zero_iff (m + n)).1 h0
  obtain ⟨a1, a2, a3⟩ := hm
  obtain ⟨b1, b2, b3⟩ := hn
  exact clamped_add_eq (by omega) (by omega) (by omega) hdvd

/-- The X25519 function on the base point identifies two clamped scalars
exactly when they are equal or add up to 8 times the order of the base point. -/
theorem X25519_base_eq_iff {m n : Nat} (hm : Clamped m) (hn : Clamped n) :
    X25519 m 9 = X25519 n 9 ↔ m = n ∨ m + n = 8 * baseOrder := by
  have hcm := X25519_cast base_nonsingular nine_ne_zero_Fp 9 nine_cast m hm.2.1
  have hcn := X25519_cast base_nonsingular nine_ne_zero_Fp 9 nine_cast n hn.2.1
  constructor
  · intro h
    rw [h, hcn] at hcm
    have hm1 := clamped_nsmul_ne_zero hm 1 (by norm_num)
    have hn1 := clamped_nsmul_ne_zero hn 1 (by norm_num)
    rw [one_nsmul] at hm1 hn1
    rcases hQm : m • Point.some base_nonsingular with _ | ⟨hQ1⟩
    · exact absurd hQm hm1
    · rcases hQn : n • Point.some base_nonsingular with _ | ⟨hQ2⟩
      · exact absurd hQn hn1
      · rename_i x1 y1 x2 y2
        rw [hQm, hQn] at hcm
        simp only [xOf] at hcm
        have hx : x1 = x2 := hcm.symm
        subst hx
        rcases Y_eq_of_X_eq hQ1.1 hQ2.1 rfl with hy | hy
        · left
          subst hy
          exact clamped_nsmul_inj hm hn (hQm.trans hQn.symm)
        · right
          apply clamped_nsmul_neg hm hn
          rw [hQm, hQn, Point.neg_some]
          subst hy
          rfl
  · intro h
    apply natCast_inj_of_lt (X25519_lt _ _) (X25519_lt _ _)
    rw [hcm, hcn]
    rcases h with h | h
    · rw [h]
    · have h0 : (m + n) • Point.some base_nonsingular = 0 := by
        rw [h, mul_comm, nsmul_base_eq_zero_iff]
        exact Dvd.intro 8 rfl
      rw [add_nsmul] at h0
      rw [eq_neg_of_add_eq_zero_left h0, xOf_neg]

/-- Two secrets have the same generated public key exactly when their clamped
scalars are equal or add up to 8 times the order of the base point. -/
theorem KeyGen_eq_iff (a b : Key) :
    KeyGen a = KeyGen b ↔
      clamp a = clamp b ∨
        decodeLE (clamp a).1 + decodeLE (clamp b).1 = 8 * baseOrder := by
  have hiff := X25519_base_eq_iff (clamp_clamped a) (clamp_clamped b)
  have hkey : KeyGen a = KeyGen b ↔
      X25519 (decodeLE (clamp a).1) 9 = X25519 (decodeLE (clamp b).1) 9 := by
    constructor
    · intro h
      exact toKey_inj (X25519_lt _ _) (X25519_lt _ _) h
    · intro h
      simp only [KeyGen, h]
  rw [hkey, hiff]
  constructor
  · rintro (h | h)
    · left
      exact Subtype.ext (decodeLE_inj _ _ ((clamp a).2.trans (clamp b).2.symm) h)
    · right
      exact h
  · rintro (h | h)
    · left
      rw [h]
    · right
      exact h

theorem x25519_KeyGen_eq_iff (a b : Key) :
    x25519.KeyGen a = x25519.KeyGen b ↔
      clamp a = clamp b ∨
        decodeLE (clamp a).1 + decodeLE (clamp b).1 = 8 * baseOrder :=
  KeyGen_eq_iff a b

/-- The second case occurs: the all-zero secret and a secret with a
different clamped scalar have the same public key, their points being
opposite. -/
theorem KeyGen_opposite_scalars :
    x25519.KeyGen ⟨List.replicate 32 0, rfl⟩ =
        x25519.KeyGen ⟨[104, 159, 174, 231, 210, 24, 147, 192, 178, 230, 188, 23, 245, 206,
          247, 166, 0, 0, 0, 0, 0, 0, 0, 0, 0, 0, 0, 0, 0, 0, 0, 64], rfl⟩ ∧
      clamp ⟨List.replicate 32 0, rfl⟩ ≠
        clamp ⟨[104, 159, 174, 231, 210, 24, 147, 192, 178, 230, 188, 23, 245, 206,
          247, 166, 0, 0, 0, 0, 0, 0, 0, 0, 0, 0, 0, 0, 0, 0, 0, 64], rfl⟩ :=
  ⟨(x25519_KeyGen_eq_iff _ _).2 (Or.inr (by decide)), by decide⟩

/-! ## Helper lemmas for the remaining claims -/

theorem key_ext (a b : Key) :
    a = b ↔ ∀ i, i < 32 → a.1.getD i 0 = b.1.getD i 0 := by
  constructor
  · intro h i _
    rw [h]
  · intro h
    apply Subtype.ext
    have ha : a.1.length = 32 := a.2
    have hb : b.1.length = 32 := b.2
    apply List.ext_getElem (ha.trans hb.symm)
    intro n h1 h2
    have := h n (by omega)
    rwa [List.getD_eq_getElem _ _ h1, List.getD_eq_getElem _ _ h2] at this

theorem PrivateKey_eq_iff (a b : PrivateKey) : a = b ↔ a.key.1 = b.key.1 := by
  constructor
  · intro h; rw [h]
  · intro h
    cases a; cases b
    simp only [PrivateKey.mk.injEq]
    exact Subtype.ext h

theorem PublicKey_eq_iff (a b : PublicKey) : a = b ↔ a.key.1 = b.key.1 := by
  constructor
  · intro h; rw [h]
  · intro h
    cases a; cases b
    simp only [PublicKey.mk.injEq]
    exact Subtype.ext h

theorem EncapsulateDeterministically_success_iff (dh : DHEngine) (pk : KemPublicKey)
    (seed : List Byte) :
    (EncapsulateDeterministically dh pk seed).2.2 = none ↔
      ∃ c s, EncapsulateDeterministically dh pk seed = (some c, some s, none) ∧
        c.length = Size ∧ s.length = Size := by
  constructor
  · intro h
    by_cases hs : seed.length = Size
    · cases pk with
      | foreign scheme raw => simp [EncapsulateDeterministically, hs] at h
      | x25519 pub =>
        rw [EncapsulateDeterministically_of_length dh pub seed hs] at h ⊢
        by_cases hv : (dh.Shared ⟨seed, hs⟩ pub.key).2 = false
        · rw [if_pos hv] at h
          simp at h
        · rw [if_neg hv]
          exact ⟨_, _, rfl, (dh.KeyGen ⟨seed, hs⟩).2, (dh.Shared ⟨seed, hs⟩ pub.key).1.2⟩
    · simp [EncapsulateDeterministically, hs] at h
  · rintro ⟨c, s, h, -, -⟩
    rw [h]

theorem Decapsulate_success_iff (dh : DHEngine) (sk : KemPrivateKey) (ct : List Byte) :
    (Decapsulate dh sk ct).2 = none ↔
      ∃ s, Decapsulate dh sk ct = (some s, none) ∧ s.length = Size := by
  constructor
  · intro h
    by_cases hc : ct.length = Size
    · cases sk with
      | foreign scheme raw => simp [Decapsulate, hc] at h
      | x25519 priv =>
        rw [Decapsulate_of_length dh priv ct hc] at h ⊢
        by_cases hv : (dh.Shared priv.key ⟨ct, hc⟩).2 = false
        · rw [if_pos hv] at h
          simp at h
        · rw [if_neg hv]
          exact ⟨_, rfl, (dh.Shared priv.key ⟨ct, hc⟩).1.2⟩
    · simp [Decapsulate, hc] at h
  · rintro ⟨s, h, -⟩
    rw [h]

theorem x25519_KeyGen_of_clamp_eq (a b : Key) (h : clamp a = clamp b) :
    x25519.KeyGen a = x25519.KeyGen b :=
  (x25519_KeyGen_eq_iff a b).2 (Or.inl h)

theorem PublicKey_Equal_of_key_eq (p q : PublicKey) (h : p.key = q.key) :
    p.Equal (.x25519 q) = true := by
  rw [PublicKey_Equal_iff, h]

theorem PublicKey_key_eq_of_Equal (p q : PublicKey) (h : p.Equal (.x25519 q) = true) :
    p.key = q.key :=
  Subtype.ext ((PublicKey_Equal_iff p q).1 h)

theorem PrivateKey_Equal_false_of_ne (a b : PrivateKey) (h : a.key.1 ≠ b.key.1) :
    a.Equal (.x25519 b) = false := by
  rw [← Bool.not_eq_true, PrivateKey_Equal_iff]
  exact h

/-! ## The claims of the specification, continued -/

/-- C11. `PrivateKey.Equal` is exact byte equality: two private keys of this
scheme are `Equal` if and only if their 32 bytes are identical, and a private
key is never `Equal` to a key of another scheme. `PublicKey.Equal` satisfies
the same, so the constant-time comparison and the ordinary comparison decide
the same relation. -/
theorem equal_is_byte_equality (a b : PrivateKey) (p q : PublicKey) (scheme : String)
    (raw : List Byte) :
    (a.Equal (.x25519 b) = true ↔ ∀ i, i < 32 → a.key.1.getD i 0 = b.key.1.getD i 0) ∧
      (a.Equal (.x25519 b) = true ↔ a = b) ∧
      a.Equal (.foreign scheme raw) = false ∧
      (p.Equal (.x25519 q) = true ↔ ∀ i, i < 32 → p.key.1.getD i 0 = q.key.1.getD i 0) ∧
      (p.Equal (.x25519 q) = true ↔ p = q) ∧
      p.Equal (.foreign scheme raw) = false ∧
      (ConstantTimeCompare a.key.slice b.key.slice == 1)
        = bytesEqual a.key.slice b.key.slice := by
  have hl : a.key.slice.length = b.key.slice.length := a.key.2.trans b.key.2.symm
  refine ⟨?_, ?_, rfl, ?_, ?_, rfl, ?_⟩
  · rw [PrivateKey_Equal_iff, ← key_ext]
    exact ⟨fun h => Subtype.ext h, fun h => by rw [h]⟩
  · rw [PrivateKey_Equal_iff, PrivateKey_eq_iff]
  · rw [PublicKey_Equal_iff, ← key_ext]
    exact ⟨fun h => Subtype.ext h, fun h => by rw [h]⟩
  · rw [PublicKey_Equal_iff, PublicKey_eq_iff]
  · rw [Bool.eq_iff_iff, beq_iff_eq, ConstantTimeCompare_eq_one _ _ hl]
    simp [bytesEqual]

/-- C12. Fixed sizes: the six size queries return 32; `MarshalBinary` of
either key type succeeds with exactly that many bytes; a call of
`EncapsulateDeterministically` is successful exactly when it returns a
ciphertext of `CiphertextSize` bytes and a shared secret of `SharedKeySize`
bytes; a call of `Decapsulate` is successful exactly when it returns
`SharedKeySize` bytes. -/
theorem fixed_sizes (dh : DHEngine) (pub : PublicKey) (priv : PrivateKey)
    (pk : KemPublicKey) (sk : KemPrivateKey) (seed ct : List Byte) :
    (PublicKeySize = 32 ∧ PrivateKeySize = 32 ∧ SeedSize = 32 ∧ SharedKeySize = 32 ∧
        CiphertextSize = 32 ∧ EncapsulationSeedSize = 32) ∧
      (pub.MarshalBinary.2 = none ∧ pub.MarshalBinary.1.length = PublicKeySize) ∧
      (priv.MarshalBinary.2 = none ∧ priv.MarshalBinary.1.length = PrivateKeySize) ∧
      ((EncapsulateDeterministically dh pk seed).2.2 = none ↔
        ∃ c s, EncapsulateDeterministically dh pk seed = (some c, some s, none) ∧
          c.length = CiphertextSize ∧ s.length = SharedKeySize) ∧
      ((Decapsulate dh sk ct).2 = none ↔
        ∃ s, Decapsulate dh sk ct = (some s, none) ∧ s.length = SharedKeySize) := by
  refine ⟨⟨rfl, rfl, rfl, rfl, rfl, rfl⟩, ⟨?_, ?_⟩, ⟨?_, ?_⟩, ?_, ?_⟩
  · rw [PublicKey_MarshalBinary_eq]
  · rw [PublicKey_MarshalBinary_eq]
    exact pub.key.2
  · rw [PrivateKey_MarshalBinary_eq]
  · rw [PrivateKey_MarshalBinary_eq]
    exact priv.key.2
  · exact EncapsulateDeterministically_success_iff dh pk seed
  · exact Decapsulate_success_iff dh sk ct

/-- C13, as stated, fails: the all-zero seed and the seed `1, 0, ..., 0` are
different, their private keys are not `Equal`, and `DeriveKey` returns `Equal`
public keys for them, because the DH engine clamps the scalar. -/
theorem publicKey_of_two_seeds :
    ∃ pk1 sk1 pk2 sk2,
      DeriveKey x25519 (List.replicate 32 0) = .returned (.x25519 pk1, .x25519 sk1) ∧
      DeriveKey x25519 (1 :: List.replicate 31 0) = .returned (.x25519 pk2, .x25519 sk2) ∧
      pk1.Equal (.x25519 pk2) = true ∧
      sk1.Equal (.x25519 sk2) = false ∧
      List.replicate 32 (0 : Byte) ≠ 1 :: List.replicate 31 0 :=
  ⟨_, _, _, _, DeriveKey_of_length x25519 (List.replicate 32 0) rfl,
    DeriveKey_of_length x25519 (1 :: List.replicate 31 0) rfl,
    PublicKey_Equal_of_key_eq _ _
      (x25519_KeyGen_of_clamp_eq ⟨List.replicate 32 0, rfl⟩ ⟨1 :: List.replicate 31 0, rfl⟩
        (by decide)),
    PrivateKey_Equal_false_of_ne _ _ (by decide), by decide⟩

/-- C13, amended. For all 32-byte seeds `s1` and `s2`, if `DeriveKey(s1)` and
`DeriveKey(s2)` return `Equal` public keys, then the seeds agree after
clamping, or their clamped scalars add up to 8 times the order of the base
point (the two public points are opposite). -/
theorem equal_publicKeys_clamped (s1 s2 : List Byte) (h1 : s1.length = 32)
    (h2 : s2.length = 32) (pk1 pk2 : PublicKey) (sk1 sk2 : KemPrivateKey)
    (hk1 : DeriveKey x25519 s1 = .returned (.x25519 pk1, sk1))
    (hk2 : DeriveKey x25519 s2 = .returned (.x25519 pk2, sk2))
    (heq : pk1.Equal (.x25519 pk2) = true) :
    clamp ⟨s1, h1⟩ = clamp ⟨s2, h2⟩ ∨
      decodeLE (clamp ⟨s1, h1⟩).1 + decodeLE (clamp ⟨s2, h2⟩).1 = 8 * baseOrder := by
  rw [DeriveKey_of_length x25519 s1 h1] at hk1
  rw [DeriveKey_of_length x25519 s2 h2] at hk2
  injection hk1 with hk1
  injection hk1 with hp1 _
  injection hp1 with hp1
  injection hk2 with hk2
  injection hk2 with hp2 _
  injection hp2 with hp2
  have hkey := PublicKey_key_eq_of_Equal pk1 pk2 heq
  rw [← hp1, ← hp2] at hkey
  exact (x25519_KeyGen_eq_iff _ _).1 hkey

/-- Witness of the amended C13: the all-zero seed and the seed `1, 0, ..., 0`. -/
theorem equal_publicKeys_clamped_witness :
    clamp ⟨List.replicate 32 0, rfl⟩ = clamp ⟨1 :: List.replicate 31 0, rfl⟩ ∨
      decodeLE (clamp ⟨List.replicate 32 0, rfl⟩).1
        + decodeLE (clamp ⟨1 :: List.replicate 31 0, rfl⟩).1 = 8 * baseOrder :=
  equal_publicKeys_clamped (List.replicate 32 0) (1 :: List.replicate 31 0) rfl rfl _ _ _ _
    (DeriveKey_of_length x25519 (List.replicate 32 0) rfl)
    (DeriveKey_of_length x25519 (1 :: List.replicate 31 0) rfl)
    (PublicKey_Equal_of_key_eq _ _
      (x25519_KeyGen_of_clamp_eq ⟨List.replicate 32 0, rfl⟩ ⟨1 :: List.replicate 31 0, rfl⟩
        (by decide)))

/-! ## Encapsulation on an arbitrary argument of interface type -/

theorem EncapsulateDeterministicallyArg_key (dh : DHEngine) (k : KemPublicKey)
    (seed : List Byte) :
    EncapsulateDeterministicallyArg dh (.key k) seed
      = .returned (EncapsulateDeterministically dh k seed) := by
  by_cases hs : seed.length = Size
  · cases k with
    | foreign scheme raw =>
      simp [EncapsulateDeterministicallyArg, EncapsulateDeterministically, hs]
    | x25519 pub =>
      simp only [EncapsulateDeterministicallyArg, EncapsulateDeterministically, hs, ne_eq,
        not_true_eq_false, if_false]
      by_cases hv : (dh.Shared (Key.zero.copyFrom seed) pub.key).2 = true
      · simp [hv]
      · simp [hv]
  · cases k <;> simp [EncapsulateDeterministicallyArg, EncapsulateDeterministically, hs]

theorem EncapsulateArg_key (dh : DHEngine) (rand : Except KemError Key) (k : KemPublicKey) :
    EncapsulateArg dh rand (.key k) = .returned (Encapsulate dh rand k) := by
  cases rand with
  | error err => rfl
  | ok seed => exact EncapsulateDeterministicallyArg_key dh k seed.slice

theorem EncapsulateArg_ok_nilPointer (dh : DHEngine) (r : Key) :
    EncapsulateArg dh (.ok r) .nilPointer = .nilDereference := by
  have hr : r.slice.length = Size := r.2
  simp [EncapsulateArg, EncapsulateDeterministicallyArg, SharedOnNil, hr]

theorem EncapsulateArg_ok_nilInterface (dh : DHEngine) (r : Key) :
    EncapsulateArg dh (.ok r) .nilInterface = .returned (none, none, some .ErrTypeMismatch) := by
  have hr : r.slice.length = Size := r.2
  simp [EncapsulateArg, EncapsulateDeterministicallyArg, hr]

theorem Encapsulate_ok_foreign (dh : DHEngine) (r : Key) (scheme : String)
    (raw : List Byte) :
    Encapsulate dh (.ok r) (.foreign scheme raw) = (none, none, some .ErrTypeMismatch) := by
  have hr : r.slice.length = Size := r.2
  simp [Encapsulate, EncapsulateDeterministically, hr]

theorem Encapsulate_ok_x25519 (dh : DHEngine) (r : Key) (pub : PublicKey) :
    Encapsulate dh (.ok r) (.x25519 pub)
      = if (dh.Shared r pub.key).2 = false then (none, none, some .ErrPubKey)
        else (some (dh.KeyGen r).slice, some (dh.Shared r pub.key).1.slice, none) := by
  have hr : r.slice.length = Size := r.2
  have hmk : (⟨r.slice, hr⟩ : Key) = r := rfl
  show EncapsulateDeterministically dh (.x25519 pub) r.slice = _
  rw [EncapsulateDeterministically_of_length dh pub r.slice hr, hmk]

/-- C14, as stated, fails: with a successful randomness draw, `Encapsulate`
returns `ErrTypeMismatch` for a public key of another scheme, and `ErrPubKey`
for the all-zero public key. -/
theorem encapsulate_fails_after_draw :
    Encapsulate x25519 (.ok Key.zero) (.foreign "other" [])
        = (none, none, some .ErrTypeMismatch) ∧
      Encapsulate x25519 (.ok Key.zero) (.x25519 ⟨Key.zero⟩)
        = (none, none, some .ErrPubKey) := by
  constructor
  · rfl
  · show EncapsulateDeterministically x25519 (.x25519 ⟨Key.zero⟩) Key.zero.slice = _
    rw [EncapsulateDeterministically_of_length x25519 _ Key.zero.slice Key.zero.2,
      if_pos (x25519_Shared_zero_invalid _)]

/-- C14, amended. For every public key argument other than an interface
holding a nil `*PublicKey`, `Encapsulate(pk)` returns a ciphertext and a shared
secret, or it fails with the error of the randomness source, with
`ErrTypeMismatch` or with `ErrPubKey`. When the draw fails it returns that
error, whatever the argument; when the draw yields `r` it returns
`ErrTypeMismatch` exactly for an argument that is not a `*PublicKey` (a key of
another scheme, or the nil interface), `ErrPubKey` exactly for a public key of
this scheme that the shared computation of the DH engine reports invalid, and a
ciphertext and shared secret without error exactly for one it reports valid.
On a key, the call is `Encapsulate` as embedded above. -/
theorem encapsulate_outcomes (dh : DHEngine) (pk : PublicKeyArg) (err : KemError)
    (r : Key) :
    EncapsulateArg dh (.error err) pk = .returned (none, none, some err) ∧
      ((∃ ct ss, EncapsulateArg dh (.ok r) pk = .returned (some ct, some ss, none)) ∨
        EncapsulateArg dh (.ok r) pk = .returned (none, none, some .ErrTypeMismatch) ∨
        EncapsulateArg dh (.ok r) pk = .returned (none, none, some .ErrPubKey) ∨
        pk = .nilPointer) ∧
      (EncapsulateArg dh (.ok r) pk = .returned (none, none, some .ErrTypeMismatch) ↔
        pk = .nilInterface ∨ ∃ scheme raw, pk = .key (.foreign scheme raw)) ∧
      (EncapsulateArg dh (.ok r) pk = .returned (none, none, some .ErrPubKey) ↔
        ∃ pub, pk = .key (.x25519 pub) ∧ (dh.Shared r pub.key).2 = false) ∧
      ((∃ ct ss, EncapsulateArg dh (.ok r) pk = .returned (some ct, some ss, none)) ↔
        ∃ pub, pk = .key (.x25519 pub) ∧ (dh.Shared r pub.key).2 = true) ∧
      (∀ (k : KemPublicKey) (rand : Except KemError Key),
        EncapsulateArg dh rand (.key k) = .returned (Encapsulate dh rand k)) := by
  have hr : r.slice.length = Size := r.2
  have hmk : (⟨r.slice, hr⟩ : Key) = r := rfl
  refine ⟨rfl, ?_, ?_, ?_, ?_, ?_⟩
  · rcases pk with (pub | ⟨scheme, raw⟩) | _ | _
    · rw [EncapsulateArg_key, Encapsulate_ok_x25519]
      by_cases hv : (dh.Shared r pub.key).2 = false
      · simp [hv]
      · simp [hv]
    · rw [EncapsulateArg_key, Encapsulate_ok_foreign]
      simp
    · simp
    · rw [EncapsulateArg_ok_nilInterface]
      simp
  · rcases pk with (pub | ⟨scheme, raw⟩) | _ | _
    · rw [EncapsulateArg_key, Encapsulate_ok_x25519]
      by_cases hv : (dh.Shared r pub.key).2 = false
      · simp [hv]
      · simp [hv]
    · rw [EncapsulateArg_key, Encapsulate_ok_foreign]
      simp
    · rw [EncapsulateArg_ok_nilPointer]
      simp
    · rw [EncapsulateArg_ok_nilInterface]
      simp
  · rcases pk with (pub | ⟨scheme, raw⟩) | _ | _
    · rw [EncapsulateArg_key, Encapsulate_ok_x25519]
      by_cases hv : (dh.Shared r pub.key).2 = false
      · simp [hv]
      · simp [hv]
    · rw [EncapsulateArg_key, Encapsulate_ok_foreign]
      simp
    · rw [EncapsulateArg_ok_nilPointer]
      simp
    · rw [EncapsulateArg_ok_nilInterface]
      simp
  · rcases pk with (pub | ⟨scheme, raw⟩) | _ | _
    · rw [EncapsulateArg_key, Encapsulate_ok_x25519]
      by_cases hv : (dh.Shared r pub.key).2 = false
      · simp [hv]
      · simp [hv]
    · rw [EncapsulateArg_key, Encapsulate_ok_foreign]
      simp
    · rw [EncapsulateArg_ok_nilPointer]
      simp
    · rw [EncapsulateArg_ok_nilInterface]
      simp
  · intro k rand
    exact EncapsulateArg_key dh rand k

/-- C15. With the randomness source as an explicit input: when the draw fails,
`GenerateKey` returns that error and no keys, and `Encapsulate(pk)` returns
that error and no ciphertext or secret; when the draw yields the 32 bytes `r`,
`GenerateKey` returns exactly the keys of `DeriveKey(r)` with no error, and
`Encapsulate(pk)` returns exactly the result of
`EncapsulateDeterministically(pk, r)`, which is never `ErrSeedSize`. -/
theorem random_source_forwarding (dh : DHEngine) (pk : KemPublicKey) (err : KemError)
    (r : Key) :
    GenerateKey dh (.error err) = .returned (none, none, some err) ∧
      Encapsulate dh (.error err) pk = (none, none, some err) ∧
      (∃ p s, DeriveKey dh r.slice = .returned (p, s) ∧
        GenerateKey dh (.ok r) = .returned (some p, some s, none)) ∧
      Encapsulate dh (.ok r) pk = EncapsulateDeterministically dh pk r.slice ∧
      (EncapsulateDeterministically dh pk r.slice).2.2 ≠ some .ErrSeedSize ∧
      (Encapsulate dh (.ok r) pk).2.2 ≠ some .ErrSeedSize := by
  have hr : r.slice.length = Size := r.2
  have hd := DeriveKey_of_length dh r.slice hr
  have hne : (EncapsulateDeterministically dh pk r.slice).2.2 ≠ some .ErrSeedSize := by
    cases pk with
    | foreign scheme raw => simp [EncapsulateDeterministically, hr]
    | x25519 pub =>
      rw [EncapsulateDeterministically_of_length dh pub r.slice hr]
      by_cases hv : (dh.Shared ⟨r.slice, hr⟩ pub.key).2 = false
      · simp [hv]
      · simp [hv]
  refine ⟨rfl, rfl, ⟨_, _, hd, ?_⟩, rfl, hne, hne⟩
  simp only [GenerateKey, hd]

/-- C17. Decapsulation and encapsulation use the same validity check and the
same shared computation with the roles swapped: for every private key `sk` of
this scheme and every 32-byte ciphertext `ct`, `Decapsulate(sk, ct)` fails with
`ErrCipherText` if and only if
`EncapsulateDeterministically(UnmarshalBinaryPublicKey(ct), sk.MarshalBinary())`
fails with `ErrPubKey`; otherwise both succeed and return the same shared
secret. -/
theorem decapsulate_mirrors_encapsulate (dh : DHEngine) (sk : PrivateKey) (ct : List Byte)
    (hct : ct.length = 32) :
    ∃ pub, UnmarshalBinaryPublicKey ct = (some pub, none) ∧
      ((Decapsulate dh (.x25519 sk) ct).2 = some .ErrCipherText ↔
        (EncapsulateDeterministically dh pub sk.MarshalBinary.1).2.2 = some .ErrPubKey) ∧
      ((Decapsulate dh (.x25519 sk) ct = (none, some .ErrCipherText) ∧
          EncapsulateDeterministically dh pub sk.MarshalBinary.1
            = (none, none, some .ErrPubKey)) ∨
        (∃ c ss, Decapsulate dh (.x25519 sk) ct = (some ss, none) ∧
          EncapsulateDeterministically dh pub sk.MarshalBinary.1
            = (some c, some ss, none))) := by
  have hsk : sk.key.slice.length = Size := sk.key.2
  have hmk : (⟨sk.key.slice, hsk⟩ : Key) = sk.key := rfl
  refine ⟨.x25519 ⟨⟨ct, hct⟩⟩, ?_, ?_⟩
  · simp [UnmarshalBinaryPublicKey, Size, hct, Key_zero_copyFrom_mk]
  · rw [PrivateKey_MarshalBinary_eq, Decapsulate_of_length dh sk ct hct,
      EncapsulateDeterministically_of_length dh _ sk.key.slice hsk, hmk]
    by_cases hv : (dh.Shared sk.key ⟨ct, hct⟩).2 = false
    · simp [hv]
    · simp [hv]

/-- Witness of C17: the private key of the all-zero seed and the all-zero
ciphertext, with the X25519 engine. -/
theorem decapsulate_mirrors_encapsulate_witness :
    ∃ pub, UnmarshalBinaryPublicKey (List.replicate 32 0) = (some pub, none) ∧
      ((Decapsulate x25519 (.x25519 ⟨Key.zero⟩) (List.replicate 32 0)).2
          = some .ErrCipherText ↔
        (EncapsulateDeterministically x25519 pub
          (PrivateKey.mk Key.zero).MarshalBinary.1).2.2 = some .ErrPubKey) ∧
      ((Decapsulate x25519 (.x25519 ⟨Key.zero⟩) (List.replicate 32 0)
            = (none, some .ErrCipherText) ∧
          EncapsulateDeterministically x25519 pub (PrivateKey.mk Key.zero).MarshalBinary.1
            = (none, none, some .ErrPubKey)) ∨
        (∃ c ss, Decapsulate x25519 (.x25519 ⟨Key.zero⟩) (List.replicate 32 0)
            = (some ss, none) ∧
          EncapsulateDeterministically x25519 pub (PrivateKey.mk Key.zero).MarshalBinary.1
            = (some c, some ss, none))) :=
  decapsulate_mirrors_encapsulate x25519 ⟨Key.zero⟩ (List.replicate 32 0) rfl

/-- C18. Encapsulation against an honestly derived key never fails: for every
32-byte seed `s` with `(pk, sk) = DeriveKey(s)` and every 32-byte seed `e`,
`EncapsulateDeterministically(pk, e)` succeeds, so it does not return
`ErrPubKey`, and `Decapsulate(sk, ct)` on the resulting ciphertext succeeds, so
it does not return `ErrCipherText`. -/
theorem honest_encapsulation_succeeds (s e : List Byte) (hs : s.length = 32)
    (he : e.length = 32) (pk : KemPublicKey) (sk : KemPrivateKey)
    (hkey : DeriveKey x25519 s = .returned (pk, sk)) :
    ∃ ct ss, EncapsulateDeterministically x25519 pk e = (some ct, some ss, none) ∧
      (EncapsulateDeterministically x25519 pk e).2.2 ≠ some .ErrPubKey ∧
      (Decapsulate x25519 sk ct).2 ≠ some .ErrCipherText ∧
      (Decapsulate x25519 sk ct).2 = none := by
  rw [DeriveKey_of_length x25519 s hs] at hkey
  injection hkey with hkey
  injection hkey with hpk hsk
  subst hpk
  subst hsk
  have hvalid : (x25519.Shared ⟨e, he⟩ (x25519.KeyGen ⟨s, hs⟩)).2 = true :=
    x25519_Shared_KeyGen_valid _ _
  have hvalid2 : (x25519.Shared ⟨s, hs⟩ (x25519.KeyGen ⟨e, he⟩)).2 = true :=
    x25519_Shared_KeyGen_valid _ _
  have henc : EncapsulateDeterministically x25519 (.x25519 ⟨x25519.KeyGen ⟨s, hs⟩⟩) e
      = (some (x25519.KeyGen ⟨e, he⟩).slice,
        some (x25519.Shared ⟨e, he⟩ (x25519.KeyGen ⟨s, hs⟩)).1.slice, none) := by
    rw [EncapsulateDeterministically_of_length x25519 _ e he]
    simp [hvalid]
  have hlen : (x25519.KeyGen ⟨e, he⟩).slice.length = Size := (x25519.KeyGen ⟨e, he⟩).2
  have hmk : (⟨(x25519.KeyGen ⟨e, he⟩).slice, hlen⟩ : Key) = x25519.KeyGen ⟨e, he⟩ := rfl
  have hdec : Decapsulate x25519 (.x25519 ⟨⟨s, hs⟩⟩) (x25519.KeyGen ⟨e, he⟩).slice
      = (some (x25519.Shared ⟨s, hs⟩ (x25519.KeyGen ⟨e, he⟩)).1.slice, none) := by
    rw [Decapsulate_of_length x25519 _ _ hlen]
    simp only [hmk, hvalid2]
    simp
  refine ⟨_, _, henc, ?_, ?_, ?_⟩
  · rw [henc]
    simp
  · rw [hdec]
    simp
  · rw [hdec]

/-- Witness of C18: the key pair of the all-zero seed and the encapsulation
seed of 32 bytes `1`. -/
theorem honest_encapsulation_succeeds_witness :
    ∃ ct ss,
      EncapsulateDeterministically x25519
          (.x25519 ⟨x25519.KeyGen ⟨List.replicate 32 0, rfl⟩⟩) (List.replicate 32 1)
        = (some ct, some ss, none) ∧
      (EncapsulateDeterministically x25519
          (.x25519 ⟨x25519.KeyGen ⟨List.replicate 32 0, rfl⟩⟩) (List.replicate 32 1)).2.2
        ≠ some .ErrPubKey ∧
      (Decapsulate x25519 (.x25519 ⟨⟨List.replicate 32 0, rfl⟩⟩) ct).2
        ≠ some .ErrCipherText ∧
      (Decapsulate x25519 (.x25519 ⟨⟨List.replicate 32 0, rfl⟩⟩) ct).2 = none :=
  honest_encapsulation_succeeds (List.replicate 32 0) (List.replicate 32 1) rfl rfl _ _
    (DeriveKey_of_length x25519 (List.replicate 32 0) rfl)

/-- C19. Unmarshalling performs no normalisation: for every 32-byte sequence
`buf`, marshalling the key that `UnmarshalBinaryPublicKey(buf)` returns gives
`buf` back byte for byte, and likewise for `UnmarshalBinaryPrivateKey`; with
the round trip in the other direction, marshalling and unmarshalling are
mutually inverse between keys and 32-byte strings. -/
theorem unmarshal_marshal_roundtrip (buf : List Byte) (h : buf.length = 32) :
    (∃ pk, UnmarshalBinaryPublicKey buf = (some (.x25519 pk), none) ∧
        pk.MarshalBinary = (buf, none) ∧ pk.key.1 = buf) ∧
      (∃ sk, UnmarshalBinaryPrivateKey buf = (some (.x25519 sk), none) ∧
        sk.MarshalBinary = (buf, none) ∧ sk.key.1 = buf) ∧
      (∀ k : PublicKey, k.MarshalBinary.1.length = 32 ∧
        UnmarshalBinaryPublicKey k.MarshalBinary.1 = (some (.x25519 k), none)) ∧
      (∀ k : PrivateKey, k.MarshalBinary.1.length = 32 ∧
        UnmarshalBinaryPrivateKey k.MarshalBinary.1 = (some (.x25519 k), none)) := by
  have hu : ∀ (l : List Byte) (hl : l.length = Size),
      UnmarshalBinaryPublicKey l = (some (.x25519 ⟨⟨l, hl⟩⟩), none) ∧
        UnmarshalBinaryPrivateKey l = (some (.x25519 ⟨⟨l, hl⟩⟩), none) := by
    intro l hl
    simp [UnmarshalBinaryPublicKey, UnmarshalBinaryPrivateKey, hl, Key_zero_copyFrom_mk]
  refine ⟨⟨⟨⟨buf, h⟩⟩, (hu buf h).1, ?_, rfl⟩, ⟨⟨⟨buf, h⟩⟩, (hu buf h).2, ?_, rfl⟩, ?_, ?_⟩
  · rw [PublicKey_MarshalBinary_eq]
    rfl
  · rw [PrivateKey_MarshalBinary_eq]
    rfl
  · intro k
    rw [PublicKey_MarshalBinary_eq]
    exact ⟨k.key.2, (hu k.key.slice k.key.2).1⟩
  · intro k
    rw [PrivateKey_MarshalBinary_eq]
    exact ⟨k.key.2, (hu k.key.slice k.key.2).2⟩

/-- Witness of C19: the 32 bytes `0xFF`. -/
theorem unmarshal_marshal_roundtrip_witness :
    (∃ pk, UnmarshalBinaryPublicKey (List.replicate 32 255) = (some (.x25519 pk), none) ∧
        pk.MarshalBinary = (List.replicate 32 255, none) ∧
        pk.key.1 = List.replicate 32 255) ∧
      (∃ sk, UnmarshalBinaryPrivateKey (List.replicate 32 255) = (some (.x25519 sk), none) ∧
        sk.MarshalBinary = (List.replicate 32 255, none) ∧
        sk.key.1 = List.replicate 32 255) ∧
      (∀ k : PublicKey, k.MarshalBinary.1.length = 32 ∧
        UnmarshalBinaryPublicKey k.MarshalBinary.1 = (some (.x25519 k), none)) ∧
      (∀ k : PrivateKey, k.MarshalBinary.1.length = 32 ∧
        UnmarshalBinaryPrivateKey k.MarshalBinary.1 = (some (.x25519 k), none)) :=
  unmarshal_marshal_roundtrip (List.replicate 32 255) rfl

end X25519Kem
